import Mathlib

/-!
Verification of the storage/tree core of the ASTURI report organizer
(`script.js`) against its design specification.

The tree model ("topics"/"subtopics"), the tiered blob storage
(`saveToStorage`/`getFromStorage`), snapshot persistence (`saveData`),
and the export/import archive exchange (`exportAllData`/`performImport`)
are embedded as pure functions; in-place mutations of the source become
pure state transformers, and `alert(...)` calls (the only user-facing
error surface in the source) become an `Option String` result channel.
-/

set_option maxHeartbeats 4000000

namespace Asturi

/-! ## Data model

A node is a "topic" or "subtopic" of `script.js`: a record of scalar
fields plus an optional `subtopics` array.  `folderType` is `"folder"`
(container) or `"pdf-folder"` (leaf holding one uploaded document).
Nodes created as containers carry `subtopics: []`; leaves have no
`subtopics` field at all, modeled as `none`.
-/

inductive FolderType where
  | folder
  | pdfFolder
  deriving DecidableEq

/-- The scalar (non-recursive) fields of a topic/subtopic object. -/
structure NodeData where
  id : Nat
  name : String
  description : Option String
  icon : Option String
  folderType : FolderType
  expanded : Bool
  createdDate : String
  uploadDate : Option String
  lastModified : Option String
  deriving DecidableEq

/-- A topic/subtopic tree node: scalar fields plus the optional
`subtopics` array (absent on leaves, present — possibly empty — on
containers). -/
inductive Node where
  | mk (data : NodeData) (subtopics : Option (List Node)) : Node

def Node.data : Node → NodeData
  | .mk d _ => d

def Node.subtopics : Node → Option (List Node)
  | .mk _ s => s

def Node.id (n : Node) : Nat := n.data.id

def Node.name (n : Node) : String := n.data.name

def Node.folderType (n : Node) : FolderType := n.data.folderType

def Node.expanded (n : Node) : Bool := n.data.expanded

@[simp] theorem Node.data_mk (d : NodeData) (s : Option (List Node)) : (Node.mk d s).data = d := rfl

@[simp] theorem Node.subtopics_mk (d : NodeData) (s : Option (List Node)) :
    (Node.mk d s).subtopics = s := rfl

@[simp] theorem Node.id_mk (d : NodeData) (s : Option (List Node)) : (Node.mk d s).id = d.id := rfl

@[simp] theorem Node.name_mk (d : NodeData) (s : Option (List Node)) :
    (Node.mk d s).name = d.name := rfl

@[simp] theorem Node.folderType_mk (d : NodeData) (s : Option (List Node)) :
    (Node.mk d s).folderType = d.folderType := rfl

theorem Node.sizeOf_subs {t : Node} {subs : List Node} (h : t.subtopics = some subs) :
    sizeOf subs < sizeOf t := by
  cases t with
  | mk d s =>
    simp only [Node.subtopics] at h
    subst h
    simp only [Node.mk.sizeOf_spec, Option.some.sizeOf_spec]
    omega

/-! ## Tree traversals (`findTopicById`, `getAllTopicsFlat`, `countAllItems`) -/

/-- `findTopicById` of `script.js`: depth-first pre-order search of the
forest; a node is checked before its subtree, a subtree before the later
siblings. -/
def findTopicById (tid : Nat) : List Node → Option Node
  | [] => none
  | t :: ts =>
    if t.id = tid then some t
    else
      match _h : t.subtopics with
      | some subs =>
        (match findTopicById tid subs with
         | some found => some found
         | none => findTopicById tid ts)
      | none => findTopicById tid ts
termination_by l => sizeOf l
decreasing_by
  · have := Node.sizeOf_subs _h
    simp only [List.cons.sizeOf_spec]
    omega
  · simp only [List.cons.sizeOf_spec]
    omega
  · simp only [List.cons.sizeOf_spec]
    omega

/-- `getAllTopicsFlat` of `script.js`: the depth-first pre-order listing
of every node of the forest. -/
def getAllTopicsFlat : List Node → List Node
  | [] => []
  | t :: ts =>
    t :: ((match _h : t.subtopics with
           | some subs => getAllTopicsFlat subs
           | none => []) ++ getAllTopicsFlat ts)
termination_by l => sizeOf l
decreasing_by
  · have := Node.sizeOf_subs _h
    simp only [List.cons.sizeOf_spec]
    omega
  · simp only [List.cons.sizeOf_spec]
    omega

mutual

/-- `countAllItems` of `script.js`: the node itself plus the recursive
sum over its `subtopics` (when that array is present). -/
def countAllItems : Node → Nat
  | .mk _ none => 1
  | .mk _ (some subs) => 1 + countAllItemsList subs

/-- The `for (subtopic of item.subtopics)` summation loop inside
`countAllItems`. -/
def countAllItemsList : List Node → Nat
  | [] => 0
  | t :: ts => countAllItems t + countAllItemsList ts

end

/-! ## Tree mutations

`script.js` mutates the found node objects in place.  The pure rendering
of "mutate the object returned by `findTopicById`" is: rebuild the forest
replacing the first node (in the same pre-order) whose id matches.
-/

/-- The recursive `removeFromArray` closure of `deleteTopic` (and the
identical `removeSubtopicRecursive` closure of `deleteSubtopic`): splice
out the first node matching the id, checking each entry and then its
subtree before moving to later siblings.  Returns the new list and
whether a removal happened. -/
def removeFromArray (tid : Nat) : List Node → List Node × Bool
  | [] => ([], false)
  | t :: ts =>
    if t.id = tid then (ts, true)
    else
      match _h : t.subtopics with
      | some subs =>
        (match removeFromArray tid subs with
         | (subs2, true) => (Node.mk t.data (some subs2) :: ts, true)
         | (_, false) =>
           let r := removeFromArray tid ts
           (t :: r.1, r.2))
      | none =>
        let r := removeFromArray tid ts
        (t :: r.1, r.2)
termination_by l => sizeOf l
decreasing_by
  · have := Node.sizeOf_subs _h
    simp only [List.cons.sizeOf_spec]
    omega
  · simp only [List.cons.sizeOf_spec]
    omega
  · simp only [List.cons.sizeOf_spec]
    omega

/-- Apply `upd` to the first node (in `findTopicById` pre-order) whose id
is `tid`, leaving every other node untouched: the pure rendering of the
in-place field assignments that `script.js` performs on the object
returned by `findTopicById`. -/
def updateFirstById (tid : Nat) (upd : Node → Node) : List Node → List Node
  | [] => []
  | t :: ts =>
    if t.id = tid then upd t :: ts
    else
      match _h : t.subtopics with
      | some subs =>
        if (findTopicById tid subs).isSome then
          Node.mk t.data (some (updateFirstById tid upd subs)) :: ts
        else t :: updateFirstById tid upd ts
      | none => t :: updateFirstById tid upd ts
termination_by l => sizeOf l
decreasing_by
  · have := Node.sizeOf_subs _h
    simp only [List.cons.sizeOf_spec]
    omega
  · simp only [List.cons.sizeOf_spec]
    omega
  · simp only [List.cons.sizeOf_spec]
    omega

mutual

/-- The spec invariant "a Leaf node never has a non-empty children
sequence", checked recursively on one node and its subtree. -/
def leafInvNode : Node → Bool
  | .mk _ none => true
  | .mk d (some subs) =>
    (decide (d.folderType = .folder) || subs.isEmpty) && leafInvList subs

/-- The leaf invariant over a whole forest. -/
def leafInvList : List Node → Bool
  | [] => true
  | t :: ts => leafInvNode t && leafInvList ts

end

/-! ## String helpers

JavaScript string primitives (`startsWith`, `trim`, `toUpperCase`)
modeled on the character sequence of the string. -/

/-- Character-list prefix test (the semantics of JS `startsWith`). -/
def charsPrefix : List Char → List Char → Bool
  | [], _ => true
  | _ :: _, [] => false
  | a :: as, b :: bs => decide (a = b) && charsPrefix as bs

/-- `s.startsWith(pre)` of JS. -/
def strStartsWith (s pre : String) : Bool := charsPrefix pre.data s.data

/-- Whitespace for the purposes of JS `trim()`. -/
def isJsSpace (c : Char) : Bool :=
  decide (c = ' ') || decide (c = '\t') || decide (c = '\n') || decide (c = '\r')

/-- `s.trim()` of JS: strip whitespace from both ends. -/
def jsTrim (s : String) : String :=
  ⟨((s.data.dropWhile isJsSpace).reverse.dropWhile isJsSpace).reverse⟩

/-- `s.toUpperCase()` of JS (ASCII model). -/
def jsToUpper (s : String) : String := ⟨s.data.map Char.toUpper⟩

/-! ## Blob Store and snapshot persistence

`initializeEnhancedStorage` fixes one of three tiers at startup:
IndexedDB (object store `pdfs` for blobs, `topics` for the snapshot),
`localStorage`, or the in-process `inMemoryStorage` map; the map also
serves as the silent `catch` fallback of `saveToStorage` and of the
synchronous part of `getFromStorage`.  The two are not symmetric:
`saveToStorage` awaits its IndexedDB request, so a failing put is caught
and falls back, while `getFromStorage` returns its request promise
without `await`, so a failing read request rejects to the caller (see
`GetFailure`).  Association lists model the key/value maps; `kvSet`
prepends, so the latest binding shadows older ones — the lookup-level
semantics of `Map.set` / IDB `put` / `localStorage.setItem`. -/

inductive StorageTier where
  | indexedDB
  | localStorageTier
  | memoryTier
  deriving DecidableEq

/-- An entry of the IndexedDB `pdfs` store or of `inMemoryStorage`:
`{ id: key, data, timestamp, size }` as written by `saveToStorage`. -/
structure BlobRec where
  data : String
  timestamp : String
  size : Nat
  deriving DecidableEq

def kvSet {α : Type} (k : String) (v : α) (m : List (String × α)) : List (String × α) :=
  (k, v) :: m

def kvGet {α : Type} (k : String) : List (String × α) → Option α
  | [] => none
  | (k2, v) :: m => if k2 = k then some v else kvGet k m

/-- The snapshot record `{ id: STORAGE_KEY, data: topics, timestamp,
version }` written by `saveData`. -/
structure SnapRec where
  data : List Node
  timestamp : String
  version : String

/-- The process-wide storage state: the fixed tier plus the contents of
the three backends.  The `snapshot` field holds the `saveData` record
stored under the fixed key `asturi_report_topics` in whichever backend
the tier selects; that key is disjoint from every `pdf_`/`excel_` blob
key the code uses, so it is modeled as its own slot. -/
structure StorageState where
  tier : StorageTier
  dbPdfs : List (String × BlobRec)
  lsData : List (String × String)
  memStore : List (String × BlobRec)
  snapshot : Option SnapRec

/-- `saveToStorage(key, value)` of `script.js`.  `failing` injects the
environment: `true` means the attempted backend operation throws, taking
the `catch` path into the in-process map.  On the memory tier both paths
write the same map entry. -/
def saveToStorage (s : StorageState) (key value : String) (now : String) (failing : Bool) :
    StorageState :=
  let rec0 : BlobRec := ⟨value, now, value.utf8ByteSize⟩
  match s.tier with
  | .indexedDB =>
    if failing then { s with memStore := kvSet key rec0 s.memStore }
    else { s with dbPdfs := kvSet key rec0 s.dbPdfs }
  | .localStorageTier =>
    if failing then { s with memStore := kvSet key rec0 s.memStore }
    else { s with lsData := kvSet key value s.lsData }
  | .memoryTier => { s with memStore := kvSet key rec0 s.memStore }

/-- The failure injected into one `getFromStorage` call.
`syncThrow`: the synchronous backend access inside the `try` throws
(IndexedDB transaction/object-store construction, or
`localStorage.getItem`) — this is the only failure the `catch` sees, and
it is answered from the in-process map.  `requestError`: the IndexedDB
read request fails (`request.onerror`, or `store.get` throwing inside
the promise executor).  The promise wrapping that request is returned
from inside the `try` WITHOUT `await`, so its rejection bypasses the
`catch` entirely and propagates to the caller.  On the other tiers no
such request exists, so `requestError` cannot occur there and the read
proceeds normally. -/
inductive GetFailure where
  | noFail
  | syncThrow
  | requestError
  deriving DecidableEq

/-- What the caller awaiting the async `getFromStorage` observes: a
resolved value, or a rejected promise (an exception at the caller's
`await` site). -/
inductive GetOutcome where
  | ok (value : Option String)
  | rejected
  deriving DecidableEq

/-- `getFromStorage(key)` of `script.js`.  On the IndexedDB tier the
result promise is returned un-awaited, so only a synchronous throw falls
back to the in-process map while a request error rejects to the caller;
on the `localStorage` and memory tiers every value is produced
synchronously (a throwing `getItem` is caught into the map fallback). -/
def getFromStorage (s : StorageState) (key : String) (failure : GetFailure) : GetOutcome :=
  match s.tier with
  | .indexedDB =>
    (match failure with
     | .noFail => .ok ((kvGet key s.dbPdfs).map BlobRec.data)
     | .syncThrow => .ok ((kvGet key s.memStore).map BlobRec.data)
     | .requestError => .rejected)
  | .localStorageTier =>
    (match failure with
     | .syncThrow => .ok ((kvGet key s.memStore).map BlobRec.data)
     | _ => .ok (kvGet key s.lsData))
  | .memoryTier => .ok ((kvGet key s.memStore).map BlobRec.data)

/-- `saveData()` of `script.js`: persist the whole forest as one
versioned snapshot under the fixed storage key (every branch of the
source, the fallbacks included, stores the same record). -/
def saveData (s : StorageState) (topics : List Node) (now : String) : StorageState :=
  { s with snapshot := some ⟨topics, now, "3.0"⟩ }

/-! ## Application state and operations -/

/-- The mutable globals of `script.js` that the core operates on: the
`topics` forest and the storage backends. -/
structure AppState where
  topics : List Node
  store : StorageState

/-- `pdf_<id>` — the primary-payload blob key. -/
def pdfKey (id : Nat) : String := "pdf_" ++ Nat.repr id

/-- `excel_<id>` — the derived-artifact blob key. -/
def excelKey (id : Nat) : String := "excel_" ++ Nat.repr id

/-- The key normalization in `performImport`:
`key.startsWith('pdf_') || key.startsWith('excel_') ? key : 'pdf_' + key`. -/
def normalizeKey (k : String) : String :=
  if strStartsWith k "pdf_" || strStartsWith k "excel_" then k else "pdf_" ++ k

/-- The `topics` field of a parsed import archive: either an actual
array (a forest) or some other JSON value (absent values are `none` at
the `Archive` level). -/
inductive TopicsField where
  | arr (forest : List Node)
  | nonArray

/-- A parsed `.asturi` archive:
`{ version, timestamp, topics, pdfs }`; `pdfs` maps blob keys to blob
payload strings in insertion order. -/
structure Archive where
  version : String
  timestamp : String
  topics : Option TopicsField
  pdfs : List (String × String)

/-- The blob-collection loop of `exportAllData`: walk the flat topic
list; for every `pdf-folder` node fetch `pdf_<id>` (emitted under the
bare node id) and `excel_<id>` (emitted under its full key), skipping
absent entries.  Reads are the no-failure executions. -/
def exportPdfs (s : StorageState) : List Node → List (String × String)
  | [] => []
  | t :: ts =>
    (if t.folderType = .pdfFolder then
      (match getFromStorage s (pdfKey t.id) .noFail with
       | .ok (some d) => [(Nat.repr t.id, d)]
       | _ => []) ++
      (match getFromStorage s (excelKey t.id) .noFail with
       | .ok (some e) => [(excelKey t.id, e)]
       | _ => [])
     else []) ++ exportPdfs s ts

/-- `exportAllData()` of `script.js`: assemble
`{ version: '3.0', timestamp, topics, pdfs }`.  Does not mutate state. -/
def exportAllData (st : AppState) (now : String) : Archive :=
  { version := "3.0"
    timestamp := now
    topics := some (.arr st.topics)
    pdfs := exportPdfs st.store (getAllTopicsFlat st.topics) }

/-- The blob-import loop of `performImport`: write every archive blob
entry under its normalized key (no-failure writes). -/
def writeArchiveBlobs (s : StorageState) (now : String) :
    List (String × String) → StorageState
  | [] => s
  | (k, v) :: rest => writeArchiveBlobs (saveToStorage s (normalizeKey k) v now false) now rest

/-- The alert shown by `performImport` when validation throws
`'Invalid data format'`. -/
def importErrorAlert : String := "❌ Error importing data: Invalid data format"

/-- The alert shown by `performImport` on success. -/
def importSuccessAlert : String := "✅ Data imported successfully!"

/-- `performImport()` of `script.js` on an already-parsed archive:
validate `importData.topics` is an array (else the thrown error is
caught and alerted, with no state change), then replace the forest
wholesale, persist it (`saveData`), then write every archive blob.  The
second component is the alert message shown. -/
def performImport (st : AppState) (a : Archive) (now : String) : AppState × Option String :=
  match a.topics with
  | some (.arr newTopics) =>
    let store1 := saveData st.store newTopics now
    let store2 := writeArchiveBlobs store1 now a.pdfs
    ({ topics := newTopics, store := store2 }, some importSuccessAlert)
  | _ => (st, some importErrorAlert)

/-- `createTopic()` of `script.js` (with the modal inputs and the
generated id as parameters): trim the name; if non-empty, append a new
top-level topic (name upper-cased, `subtopics: []` only for regular
folders) and persist. -/
def createTopic (st : AppState) (nameRaw : String) (ft : FolderType) (newId : Nat)
    (now : String) : AppState :=
  let name := jsTrim nameRaw
  if name = "" then st
  else
    let d : NodeData :=
      { id := newId
        name := jsToUpper name
        description := none
        icon := some (if ft = .folder then "fas fa-folder" else "fas fa-file-pdf")
        folderType := ft
        expanded := false
        createdDate := now
        uploadDate := none
        lastModified := none }
    let topics2 := st.topics ++ [Node.mk d (if ft = .folder then some [] else none)]
    { topics := topics2, store := saveData st.store topics2 now }

/-- The alert shown by `addSubtopic` when the chosen parent is a
`pdf-folder`. -/
def pdfFolderAlert : String :=
  "PDF folders cannot contain sub-items. Only regular folders can contain other items."

/-- The `insertChild(parentId, newNode)` operation of the spec: the
`addSubtopic(topicId)` guard followed by `createSubtopic()` of
`script.js` (modal inputs and generated id as parameters).  An
unresolved parent returns silently; a `pdf-folder` parent raises the
alert; otherwise the trimmed name must be non-empty and the new subtopic
(description defaulted, `subtopics: []` only for regular folders) is
pushed onto the parent's `subtopics` (initialized if absent) and the
forest persisted.  The second component is the alert message shown. -/
def insertChild (st : AppState) (parentId : Nat) (nameRaw descRaw : String) (ft : FolderType)
    (newId : Nat) (now : String) : AppState × Option String :=
  match findTopicById parentId st.topics with
  | none => (st, none)
  | some p =>
    if p.folderType = .pdfFolder then (st, some pdfFolderAlert)
    else
      let name := jsTrim nameRaw
      if name = "" then (st, none)
      else
        let desc := if jsTrim descRaw = "" then "No description provided" else jsTrim descRaw
        let child : Node :=
          Node.mk
            { id := newId
              name := name
              description := some desc
              icon := none
              folderType := ft
              expanded := false
              createdDate := now
              uploadDate := none
              lastModified := none }
            (if ft = .folder then some [] else none)
        let topics2 :=
          updateFirstById parentId
            (fun t => Node.mk t.data (some (t.subtopics.getD [] ++ [child]))) st.topics
        ({ topics := topics2, store := saveData st.store topics2 now }, none)

/-- The field updates `target.name = newName; target.lastModified = ...`
of `confirmRename`. -/
def renameUpd (nm now : String) (t : Node) : Node :=
  Node.mk { t.data with name := nm, lastModified := some now } t.subtopics

/-- `confirmRename()` of `script.js` (rename-input value and target id
as parameters): trim the new name; if non-empty and the target resolves,
update its `name` and `lastModified` and persist; in every other case
the modal just closes — no alert is ever shown (second component). -/
def confirmRename (st : AppState) (tid : Nat) (raw now : String) : AppState × Option String :=
  let newName := jsTrim raw
  if newName = "" then (st, none)
  else
    match findTopicById tid st.topics with
    | none => (st, none)
    | some _ =>
      let topics2 := updateFirstById tid (renameUpd newName now) st.topics
      ({ topics := topics2, store := saveData st.store topics2 now }, none)

/-- `toggleTopic()` / `toggleSubtopic()` of `script.js` (both have the
same behavior): flip `expanded` when the node resolves and has a
non-empty `subtopics`, then persist; otherwise no-op. -/
def toggleTopic (st : AppState) (tid : Nat) (now : String) : AppState :=
  match findTopicById tid st.topics with
  | none => st
  | some t =>
    if (t.subtopics.getD []).isEmpty then st
    else
      let topics2 :=
        updateFirstById tid
          (fun u => Node.mk { u.data with expanded := !u.data.expanded } u.subtopics) st.topics
      { topics := topics2, store := saveData st.store topics2 now }

/-- `deleteTopic()` of `script.js`, confirmed path: remove the first
node matching the id via `removeFromArray` and persist. -/
def deleteTopic (st : AppState) (tid : Nat) (now : String) : AppState :=
  match findTopicById tid st.topics with
  | none => st
  | some _ =>
    let topics2 := (removeFromArray tid st.topics).1
    { topics := topics2, store := saveData st.store topics2 now }

/-- The fallback loop of `deleteSubtopic`: try
`removeSubtopicRecursive(topic.subtopics)` on each top-level topic,
stopping at the first success. -/
def removeFromTopLevelSubs (sid : Nat) : List Node → List Node
  | [] => []
  | t :: ts =>
    match t.subtopics with
    | some subs =>
      (match removeFromArray sid subs with
       | (subs2, true) => Node.mk t.data (some subs2) :: ts
       | (_, false) => t :: removeFromTopLevelSubs sid ts)
    | none => t :: removeFromTopLevelSubs sid ts

/-- `deleteSubtopic()` of `script.js`, confirmed path: remove inside the
resolved parent's `subtopics` when possible (its
`removeSubtopicRecursive` is the same algorithm as `removeFromArray`),
else scan all top-level topics, then persist. -/
def deleteSubtopic (st : AppState) (sid parentId : Nat) (now : String) : AppState :=
  match findTopicById sid st.topics with
  | none => st
  | some _ =>
    let topics2 :=
      match findTopicById parentId st.topics with
      | some p =>
        (match p.subtopics with
         | some _ =>
           updateFirstById parentId
             (fun t => Node.mk t.data (t.subtopics.map (fun subs => (removeFromArray sid subs).1)))
             st.topics
         | none => removeFromTopLevelSubs sid st.topics)
      | none => removeFromTopLevelSubs sid st.topics
    { topics := topics2, store := saveData st.store topics2 now }

/-- The `topicCount` of `getStorageInfo`:
`countAllItems({ subtopics: topics }) - 1` — a synthetic root object
holding the forest, counted recursively, minus the root itself. -/
def storageInfoTopicCount (topics : List Node) : Nat :=
  countAllItems
    (Node.mk
      { id := 0, name := "", description := none, icon := none, folderType := .folder,
        expanded := false, createdDate := "", uploadDate := none, lastModified := none }
      (some topics)) - 1

/-- The per-node `name`/`lastModified` rewrite used to state "rename
changes nothing else": every node keeps all its fields and its position;
only nodes carrying the renamed id get `name` and `lastModified`
replaced.  (Stated from the spec sentence, to be compared with the
`confirmRename` of the source.) -/
def renameAllById (tid : Nat) (nm now : String) : List Node → List Node
  | [] => []
  | .mk d (some subs) :: ts =>
    Node.mk (if d.id = tid then { d with name := nm, lastModified := some now } else d)
      (some (renameAllById tid nm now subs)) :: renameAllById tid nm now ts
  | .mk d none :: ts =>
    Node.mk (if d.id = tid then { d with name := nm, lastModified := some now } else d)
      none :: renameAllById tid nm now ts
termination_by l => sizeOf l
decreasing_by
  · simp only [List.cons.sizeOf_spec, Node.mk.sizeOf_spec, Option.some.sizeOf_spec]
    omega
  · simp only [List.cons.sizeOf_spec]
    omega
  · simp only [List.cons.sizeOf_spec]
    omega

/-! ## The built-in default forest (`loadDefaultData`) -/

/-- A default top-level topic: `icon: "fas fa-folder"`, no description,
`folderType: "folder"`. -/
def defTopicFolder (i : Nat) (nm : String) (e : Bool) (now : String) (subs : List Node) : Node :=
  Node.mk
    { id := i, name := nm, description := none, icon := some "fas fa-folder",
      folderType := .folder, expanded := e, createdDate := now, uploadDate := none,
      lastModified := none }
    (some subs)

/-- A default nested folder: description, no icon,
`folderType: "folder"`, collapsed. -/
def defSubFolder (i : Nat) (nm ds now : String) (subs : List Node) : Node :=
  Node.mk
    { id := i, name := nm, description := some ds, icon := none, folderType := .folder,
      expanded := false, createdDate := now, uploadDate := none, lastModified := none }
    (some subs)

/-- A default leaf: description, no icon, `folderType: "pdf-folder"`,
no `subtopics` field. -/
def defLeaf (i : Nat) (nm ds now : String) : Node :=
  Node.mk
    { id := i, name := nm, description := some ds, icon := none, folderType := .pdfFolder,
      expanded := false, createdDate := now, uploadDate := none, lastModified := none }
    none

/-- `loadDefaultData()` of `script.js`: the built-in ASTURI forest,
parameterized by the creation timestamp `now`. -/
def defaultTopics (now : String) : List Node :=
  [ defTopicFolder 1 "STANDARD FORMAT FOR FINANCE" true now
      [ defLeaf 11 "PROFIT & LOSS STATEMENT" "Comprehensive profit and loss financial statement" now,
        defLeaf 12 "BALANCE SHEET" "Complete balance sheet report" now ],
    defTopicFolder 2 "REPORT FOR REVENUE" false now
      [ defLeaf 21 "Summary of Property Rental" "Comprehensive property rental revenue summary" now ],
    defTopicFolder 3 "REPORT FOR INVOICE & PAYMENT RECEIVED" false now
      [ defLeaf 31 "Rental Lot 74-A, Gebeng" "Invoice and payment tracking for Lot 74-A, Gebeng" now,
        defLeaf 32 "Rental Lot 3/129, Gebeng" "Invoice and payment tracking for Lot 3/129, Gebeng" now,
        defLeaf 33 "Rental Land, Gebeng" "Invoice and payment tracking for Land, Gebeng" now,
        defLeaf 34 "Rental Bangi" "Invoice and payment tracking for Bangi property" now,
        defLeaf 35 "Rental Jalan Kuching - Blok 3" "Invoice and payment tracking for Jalan Kuching Blok 3" now,
        defLeaf 36 "Rental Jalan Kuching - Blok 3A" "Invoice and payment tracking for Jalan Kuching Blok 3A" now,
        defLeaf 37 "Rental Short Term Rental" "Invoice and payment tracking for short term rentals" now,
        defLeaf 38 "Rental of Equipment" "Invoice and payment tracking for equipment rental" now,
        defLeaf 39 "Rental Others" "Invoice and payment tracking for other rental services" now ],
    defTopicFolder 4 "REPORT FOR COST OF SALES" false now
      [ defLeaf 41 "Rental Lot 74-A, Gebeng" "Cost of sales for Lot 74-A, Gebeng rental" now,
        defLeaf 42 "Rental Lot 3/129, Gebeng" "Cost of sales for Lot 3/129, Gebeng rental" now,
        defLeaf 43 "Rental Land, Gebeng" "Cost of sales for Land, Gebeng rental" now,
        defLeaf 44 "Rental Bangi" "Cost of sales for Bangi rental" now,
        defLeaf 45 "Rental Jalan Kuching - Blok 3" "Cost of sales for Jalan Kuching Blok 3 rental" now,
        defLeaf 46 "Rental Jalan Kuching - Blok 3A" "Cost of sales for Jalan Kuching Blok 3A rental" now,
        defLeaf 47 "Rental Short Term Rental" "Cost of sales for short term rentals" now,
        defLeaf 48 "Rental of Equipment" "Cost of sales for equipment rental" now,
        defLeaf 49 "Rental Others" "Cost of sales for other rental services" now ],
    defTopicFolder 5 "REPORT FOR EXPENSES" false now
      [ defSubFolder 51 "Salary & Expenses" "Salary and expense management folder" now
          [ defLeaf 511 "Summary Salary & Salary Expenses" "Summary of all salary and salary-related expenses" now,
            defLeaf 512 "Details - Salary" "Detailed salary breakdown" now,
            defLeaf 513 "Details - Salary Expenses" "Detailed salary-related expenses" now ],
        defSubFolder 52 "Utilities & Maintenance" "Utilities and maintenance expenses folder" now
          [ defLeaf 521 "Details - Utilities" "Detailed utilities expenses breakdown" now,
            defLeaf 522 "Details - Maintenance and Purchase Order" "Detailed maintenance and purchase order expenses" now,
            defLeaf 523 "Maintenance and Purchase Order (Buildings)" "Building maintenance: Lot 74-A Office + Factory 1-13, Lot 3/129, Lot 55/129 (Kilang 8), Boulevard Business Park Jalan Kuching, Plaza Paragon Point Bangi" now ],
        defSubFolder 53 "Taxes & Legal" "Tax and legal expenses folder" now
          [ defLeaf 531 "Details - Cukai Tanah & Cukai Taksiran" "Land tax and assessment tax details" now,
            defLeaf 532 "Cukai Tanah (Land Tax)" "Land tax for: Lot 74-A Office + Factory 1-13, Lot 3/129, Lot 55/129 (Kilang 8)" now,
            defLeaf 533 "Cukai Taksiran (Assessment Tax)" "Assessment tax for: Boulevard Business Park Jalan Kuching, Plaza Paragon Point Bangi, Lot 55/129 (Kilang 8)" now,
            defLeaf 534 "Details - Legal & Consultancy" "Legal and consultancy fee expenses" now ] ],
    defTopicFolder 6 "FORMAT ADDITIONAL FORMS" false now
      [ defSubFolder 61 "Payment Forms" "Payment related forms and templates" now
          [ defLeaf 611 "PROPOSED PAYMENT FOR APPROVAL - GENERAL" "General payment approval form" now,
            defLeaf 612 "PROPOSED PAYMENT FOR APPROVAL - SALARY" "Salary payment approval form" now,
            defLeaf 613 "PROPOSED PAYMENT FOR APPROVAL - UTILITY" "Utility payment approval form" now,
            defLeaf 614 "PAYMENT REQUEST" "Payment request form template" now ],
        defSubFolder 62 "Invoice & Receipt Forms" "Invoice and receipt templates" now
          [ defLeaf 621 "INVOICE" "Invoice template form" now,
            defLeaf 622 "OFFICIAL RECEIPT" "Official receipt template form" now,
            defLeaf 623 "SUMMARY INVOICE LISTING" "Summary of all invoice listings" now,
            defLeaf 624 "SUMMARY OFFICIAL RECEIPT" "Summary of all official receipts" now ] ],
    defTopicFolder 7 "ASSETS" false now
      [ defLeaf 71 "LIST OF ASSETS" "Complete list of 19 company assets" now,
        defLeaf 72 "ASSET LISTING" "Detailed asset listing (19 items - to be filled by Asturi staff)" now ],
    defTopicFolder 8 "VEHICLE MANAGEMENT" false now
      [ defSubFolder 81 "Vehicle Maintenance & Servicing" "Vehicle maintenance and servicing records" now
          [ defLeaf 811 "ASTURI RESOURCES - Maintenance & Servicing" "Vehicle maintenance and servicing expenses for Asturi Resources" now,
            defLeaf 812 "ASTURI TRUCK & CRANE - Maintenance & Servicing" "Vehicle maintenance and servicing expenses for Asturi Truck & Crane" now,
            defLeaf 813 "PERSONAL VEHICLES - Maintenance & Servicing" "Personal vehicle maintenance and servicing expenses" now ],
        defSubFolder 82 "Vehicle Road Tax & Insurance" "Vehicle road tax and insurance records" now
          [ defLeaf 821 "ASTURI RESOURCES - Road Tax & Insurance" "Vehicle road tax and insurance expenses for Asturi Resources" now,
            defLeaf 822 "ASTURI TRUCK & CRANE - Road Tax & Insurance" "Vehicle road tax and insurance expenses for Asturi Truck & Crane" now,
            defLeaf 823 "PERSONAL VEHICLES - Road Tax & Insurance" "Personal vehicle road tax and insurance expenses" now ] ] ]

/-! ## Reachable application states -/

/-- States reachable from the built-in defaults through the
tree-editing operations (topic creation, subtopic insertion, rename,
expansion toggle, topic and subtopic deletion), with arbitrary inputs
and an arbitrary initial storage. -/
inductive ReachableEdit : AppState → Prop where
  | start (now : String) (store : StorageState) : ReachableEdit ⟨defaultTopics now, store⟩
  | create (s : AppState) (nameRaw : String) (ft : FolderType) (newId : Nat) (now : String) :
      ReachableEdit s → ReachableEdit (createTopic s nameRaw ft newId now)
  | insert (s : AppState) (pid : Nat) (nameRaw descRaw : String) (ft : FolderType)
      (newId : Nat) (now : String) :
      ReachableEdit s → ReachableEdit (insertChild s pid nameRaw descRaw ft newId now).1
  | rename (s : AppState) (tid : Nat) (raw now : String) :
      ReachableEdit s → ReachableEdit (confirmRename s tid raw now).1
  | toggle (s : AppState) (tid : Nat) (now : String) :
      ReachableEdit s → ReachableEdit (toggleTopic s tid now)
  | deleteTop (s : AppState) (tid : Nat) (now : String) :
      ReachableEdit s → ReachableEdit (deleteTopic s tid now)
  | deleteSub (s : AppState) (sid pid : Nat) (now : String) :
      ReachableEdit s → ReachableEdit (deleteSubtopic s sid pid now)

/-- States reachable from the built-in defaults through the
tree-editing operations and `performImport`. -/
inductive ReachableAll : AppState → Prop where
  | start (now : String) (store : StorageState) : ReachableAll ⟨defaultTopics now, store⟩
  | create (s : AppState) (nameRaw : String) (ft : FolderType) (newId : Nat) (now : String) :
      ReachableAll s → ReachableAll (createTopic s nameRaw ft newId now)
  | insert (s : AppState) (pid : Nat) (nameRaw descRaw : String) (ft : FolderType)
      (newId : Nat) (now : String) :
      ReachableAll s → ReachableAll (insertChild s pid nameRaw descRaw ft newId now).1
  | rename (s : AppState) (tid : Nat) (raw now : String) :
      ReachableAll s → ReachableAll (confirmRename s tid raw now).1
  | toggle (s : AppState) (tid : Nat) (now : String) :
      ReachableAll s → ReachableAll (toggleTopic s tid now)
  | deleteTop (s : AppState) (tid : Nat) (now : String) :
      ReachableAll s → ReachableAll (deleteTopic s tid now)
  | deleteSub (s : AppState) (sid pid : Nat) (now : String) :
      ReachableAll s → ReachableAll (deleteSubtopic s sid pid now)
  | importArchive (s : AppState) (a : Archive) (now : String) :
      ReachableAll s → ReachableAll (performImport s a now).1

/-! ## Concrete fixtures used by witnesses and counterexamples -/

def wNow : String := "2024-01-01T00:00:00.000Z"

/-- A two-node sample forest: container 1 holding leaf 2. -/
def wForest : List Node :=
  [defSubFolder 1 "A" "container" wNow [defLeaf 2 "B" "leaf" wNow]]

/-- A sample store on the in-memory tier holding leaf 2's payload. -/
def wStore : StorageState :=
  ⟨.memoryTier, [], [], [(pdfKey 2, ⟨"PAYLOAD", wNow, 7⟩)], none⟩

def wApp : AppState := ⟨wForest, wStore⟩

/-- An archive whose `topics` field is a `pdf-folder` node carrying a
non-empty `subtopics` array — accepted by `performImport` unchecked. -/
def wBadArchive : Archive :=
  { version := "3.0"
    timestamp := wNow
    topics := some (.arr [Node.mk
      { id := 9, name := "BAD", description := none, icon := none, folderType := .pdfFolder,
        expanded := false, createdDate := wNow, uploadDate := none, lastModified := none }
      (some [defLeaf 10 "C" "child of a leaf" wNow])])
    pdfs := [] }

/-- An archive with no usable `topics` field. -/
def wNoTopicsArchive : Archive :=
  { version := "3.0", timestamp := wNow, topics := none, pdfs := [(pdfKey 2, "X")] }

/-- The last archive entry whose normalized key is `k` (later writes of
`performImport` shadow earlier ones). -/
def lastWrite (k : String) : List (String × String) → Option String
  | [] => none
  | (k2, v) :: rest =>
    match lastWrite k rest with
    | some w => some w
    | none => if normalizeKey k2 = k then some v else none

@[simp] theorem countAllItems_mk_none (d : NodeData) : countAllItems (.mk d none) = 1 := by
  simp [countAllItems]

@[simp] theorem countAllItems_mk_some (d : NodeData) (subs : List Node) :
    countAllItems (.mk d (some subs)) = 1 + countAllItemsList subs := by
  simp [countAllItems]

@[simp] theorem countAllItemsList_nil : countAllItemsList [] = 0 := by
  simp [countAllItemsList]

@[simp] theorem countAllItemsList_cons (t : Node) (ts : List Node) :
    countAllItemsList (t :: ts) = countAllItems t + countAllItemsList ts := by
  simp [countAllItemsList]

/-- The flat listing and the recursive count agree on every forest. -/
theorem length_getAllTopicsFlat (l : List Node) :
    (getAllTopicsFlat l).length = countAllItemsList l := by
  induction l using getAllTopicsFlat.induct with
  | case1 => simp [getAllTopicsFlat]
  | case2 t ts ih1 ih2 =>
    cases t with
    | mk d s =>
      rw [getAllTopicsFlat]
      cases s with
      | none =>
        simp [ih2]
        omega
      | some subs =>
        simp [ih1 subs rfl, ih2]
        omega

@[simp] theorem getAllTopicsFlat_nil : getAllTopicsFlat [] = [] := by
  simp [getAllTopicsFlat]

@[simp] theorem getAllTopicsFlat_cons_some (d : NodeData) (subs ts : List Node) :
    getAllTopicsFlat (Node.mk d (some subs) :: ts) =
      Node.mk d (some subs) :: (getAllTopicsFlat subs ++ getAllTopicsFlat ts) := by
  rw [getAllTopicsFlat]
  simp

@[simp] theorem getAllTopicsFlat_cons_none (d : NodeData) (ts : List Node) :
    getAllTopicsFlat (Node.mk d none :: ts) = Node.mk d none :: getAllTopicsFlat ts := by
  rw [getAllTopicsFlat]
  simp

@[simp] theorem findTopicById_nil (tid : Nat) : findTopicById tid [] = none := by
  simp [findTopicById]

theorem findTopicById_cons_some (tid : Nat) (d : NodeData) (subs ts : List Node) :
    findTopicById tid (Node.mk d (some subs) :: ts) =
      if d.id = tid then some (Node.mk d (some subs))
      else
        match findTopicById tid subs with
        | some found => some found
        | none => findTopicById tid ts := by
  rw [findTopicById]
  rfl

theorem findTopicById_cons_none (tid : Nat) (d : NodeData) (ts : List Node) :
    findTopicById tid (Node.mk d none :: ts) =
      if d.id = tid then some (Node.mk d none) else findTopicById tid ts := by
  rw [findTopicById]
  rfl

/-- Soundness of the search: a found node is a node of the forest and
carries the searched id. -/
theorem findTopicById_mem_id {tid : Nat} {l : List Node} {n : Node}
    (h : findTopicById tid l = some n) : n ∈ getAllTopicsFlat l ∧ n.id = tid := by
  induction l using findTopicById.induct tid with
  | case1 => simp at h
  | case2 t ts htid =>
    cases t with
    | mk d s =>
      simp only [Node.id_mk] at htid
      cases s with
      | some subs =>
        rw [findTopicById_cons_some, if_pos htid] at h
        cases h
        simp [htid]
      | none =>
        rw [findTopicById_cons_none, if_pos htid] at h
        cases h
        simp [htid]
  | case3 t ts htid subs hsubs found hfound ih =>
    cases t with
    | mk d s =>
      simp only [Node.subtopics] at hsubs
      subst hsubs
      simp only [Node.id_mk] at htid
      rw [findTopicById_cons_some, if_neg htid, hfound] at h
      cases h
      have := ih hfound
      simp [this.1, this.2]
  | case4 t ts htid subs hsubs hnone ihsubs ih =>
    cases t with
    | mk d s =>
      simp only [Node.subtopics] at hsubs
      subst hsubs
      simp only [Node.id_mk] at htid
      rw [findTopicById_cons_some, if_neg htid, hnone] at h
      have := ih h
      simp [this.1, this.2]
  | case5 t ts htid hsubs ih =>
    cases t with
    | mk d s =>
      simp only [Node.subtopics] at hsubs
      subst hsubs
      simp only [Node.id_mk] at htid
      rw [findTopicById_cons_none, if_neg htid] at h
      have := ih h
      simp [this.1, this.2]

/-- Completeness of the search: a `none` answer means no node of the
forest carries the searched id. -/
theorem findTopicById_none {tid : Nat} {l : List Node} (h : findTopicById tid l = none) :
    ∀ m ∈ getAllTopicsFlat l, m.id ≠ tid := by
  induction l using findTopicById.induct tid with
  | case1 => simp
  | case2 t ts htid =>
    cases t with
    | mk d s =>
      simp only [Node.id_mk] at htid
      cases s with
      | some subs => rw [findTopicById_cons_some, if_pos htid] at h; cases h
      | none => rw [findTopicById_cons_none, if_pos htid] at h; cases h
  | case3 t ts htid subs hsubs found hfound ih =>
    cases t with
    | mk d s =>
      simp only [Node.subtopics] at hsubs
      subst hsubs
      simp only [Node.id_mk] at htid
      rw [findTopicById_cons_some, if_neg htid, hfound] at h
      cases h
  | case4 t ts htid subs hsubs hnone ihsubs ih =>
    cases t with
    | mk d s =>
      simp only [Node.subtopics] at hsubs
      subst hsubs
      simp only [Node.id_mk] at htid
      rw [findTopicById_cons_some, if_neg htid, hnone] at h
      intro m hm
      simp only [getAllTopicsFlat_cons_some, List.mem_cons, List.mem_append] at hm
      rcases hm with rfl | hm | hm
      · simpa using htid
      · exact ihsubs hnone m hm
      · exact ih h m hm
  | case5 t ts htid hsubs ih =>
    cases t with
    | mk d s =>
      simp only [Node.subtopics] at hsubs
      subst hsubs
      simp only [Node.id_mk] at htid
      rw [findTopicById_cons_none, if_neg htid] at h
      intro m hm
      simp only [getAllTopicsFlat_cons_none, List.mem_cons] at hm
      rcases hm with rfl | hm
      · simpa using htid
      · exact ih h m hm

/-! ## Claim C10 — flat enumeration vs recursive count -/

/-- Claim C10: for every forest, the flat depth-first enumeration
(`getAllTopicsFlat`) has exactly the length that the storage-info report
computes as `countAllItems({ subtopics: topics }) - 1`. -/
theorem storageInfo_topicCount_eq_flat_length (topics : List Node) :
    storageInfoTopicCount topics = (getAllTopicsFlat topics).length := by
  simp [storageInfoTopicCount, length_getAllTopicsFlat]

/-! ## Claim C4 — `findById` finds every node -/

/-- Claim C4: in a forest whose ids are unique tree-wide, the pre-order
depth-first search `findTopicById` returns the node itself for every
node of the forest, at any depth. -/
theorem findById_returns_node (f : List Node) (n : Node)
    (hnodup : ((getAllTopicsFlat f).map Node.id).Nodup)
    (hmem : n ∈ getAllTopicsFlat f) :
    findTopicById n.id f = some n := by
  cases hfind : findTopicById n.id f with
  | none => exact absurd rfl (findTopicById_none hfind n hmem)
  | some m =>
    obtain ⟨hm, hid⟩ := findTopicById_mem_id hfind
    have : m = n := List.inj_on_of_nodup_map hnodup hm hmem hid
    rw [this]

/-- Witness for C4 at the sample forest: the nested leaf 2 is found. -/
theorem findById_returns_node_witness :
    findTopicById (defLeaf 2 "B" "leaf" wNow).id wForest = some (defLeaf 2 "B" "leaf" wNow) :=
  findById_returns_node wForest (defLeaf 2 "B" "leaf" wNow)
    (by simp [wForest, defSubFolder, defLeaf])
    (by simp [wForest, defSubFolder, defLeaf])

/-! ## Claims C8 and C2 — Blob Store put/get contract -/

@[simp] theorem kvGet_set_same {α : Type} (k : String) (v : α) (m : List (String × α)) :
    kvGet k (kvSet k v m) = some v := by
  simp [kvGet, kvSet]

theorem kvGet_set_other {α : Type} {k k2 : String} (h : k ≠ k2) (v : α)
    (m : List (String × α)) : kvGet k2 (kvSet k v m) = kvGet k2 m := by
  simp [kvGet, kvSet, h]

/-- A no-failure write followed by a no-failure read of the same key
resolves exactly the value written (shared helper, every tier). -/
theorem getFromStorage_save_same (s : StorageState) (k v now : String) :
    getFromStorage (saveToStorage s k v now false) k .noFail = .ok (some v) := by
  cases s with
  | mk tier db ls mem snap =>
    cases tier <;> simp [saveToStorage, getFromStorage]

/-- Claim C8: a `saveToStorage` followed by `getFromStorage` on the same
key, with no backend failure in between, resolves exactly the value
written — on whichever of the three tiers is selected. -/
theorem put_get_roundtrip (s : StorageState) (k v now : String) :
    getFromStorage (saveToStorage s k v now false) k .noFail = GetOutcome.ok (some v) :=
  getFromStorage_save_same s k v now

/-- Claim C2 (amended): a successful `saveToStorage` against a durable
tier never mirrors the value into the in-process map; a following
`getFromStorage` of that key whose synchronous backend access throws is
answered purely from that map — `none` whenever the key was never
fallback-written — on both durable tiers; but on the IndexedDB tier a
read whose request errors does not return a value at all: the promise
is returned un-awaited, so the failure rejects to the caller. -/
theorem put_then_failed_get (s : StorageState) (k v now : String)
    (hdur : s.tier = .indexedDB ∨ s.tier = .localStorageTier) :
    (saveToStorage s k v now false).memStore = s.memStore ∧
    getFromStorage (saveToStorage s k v now false) k .syncThrow =
      .ok ((kvGet k s.memStore).map BlobRec.data) ∧
    (kvGet k s.memStore = none →
      getFromStorage (saveToStorage s k v now false) k .syncThrow = .ok none) ∧
    (s.tier = .indexedDB →
      getFromStorage (saveToStorage s k v now false) k .requestError = .rejected) := by
  cases s with
  | mk tier db ls mem snap =>
    rcases hdur with h | h
    · simp only at h
      subst h
      refine ⟨by simp [saveToStorage], by simp [saveToStorage, getFromStorage], ?_, ?_⟩
      · intro hmem
        simp [saveToStorage, getFromStorage, hmem]
      · intro _
        simp [saveToStorage, getFromStorage]
    · simp only at h
      subst h
      refine ⟨by simp [saveToStorage], by simp [saveToStorage, getFromStorage], ?_, ?_⟩
      · intro hmem
        simp [saveToStorage, getFromStorage, hmem]
      · intro h2
        simp at h2

/-- Witness for C2, pinning both durable tiers: after a successful put
of `pdf_5` with an empty in-process map, a sync-throwing get of `pdf_5`
resolves `none` on IndexedDB and on localStorage, and a request-error
get on IndexedDB rejects instead of resolving. -/
theorem put_then_failed_get_witness :
    getFromStorage (saveToStorage ⟨.indexedDB, [], [], [], none⟩ "pdf_5" "BYTES" wNow false)
        "pdf_5" .syncThrow = .ok none ∧
    getFromStorage (saveToStorage ⟨.localStorageTier, [], [], [], none⟩ "pdf_5" "BYTES" wNow false)
        "pdf_5" .syncThrow = .ok none ∧
    getFromStorage (saveToStorage ⟨.indexedDB, [], [], [], none⟩ "pdf_5" "BYTES" wNow false)
        "pdf_5" .requestError = .rejected :=
  ⟨(put_then_failed_get ⟨.indexedDB, [], [], [], none⟩ "pdf_5" "BYTES" wNow
      (Or.inl rfl)).2.2.1 rfl,
   (put_then_failed_get ⟨.localStorageTier, [], [], [], none⟩ "pdf_5" "BYTES" wNow
      (Or.inr rfl)).2.2.1 rfl,
   (put_then_failed_get ⟨.indexedDB, [], [], [], none⟩ "pdf_5" "BYTES" wNow
      (Or.inl rfl)).2.2.2 rfl⟩

/-- Counterexample to C2 as stated: on the IndexedDB tier, after a
successful put that mirrored nothing, a get of the same key whose
backend read fails (the read request errors) does NOT return `None` —
`getFromStorage` returns the request promise from inside the `try`
without `await`, so the failure bypasses the `catch`/memory fallback
and rejects to the caller, returning no value at all. -/
theorem idb_get_requestError_cex :
    (saveToStorage ⟨.indexedDB, [], [], [], none⟩ "pdf_5" "BYTES" wNow false).memStore = [] ∧
    getFromStorage (saveToStorage ⟨.indexedDB, [], [], [], none⟩ "pdf_5" "BYTES" wNow false)
      "pdf_5" .requestError = .rejected :=
  ⟨rfl, rfl⟩

/-! ## Claim C6 — import validation aborts before any mutation -/

/-- Claim C6: when the archive's `topics` field is absent or not an
array, `performImport` raises the invalid-format alert and returns the
application state — forest, storage, snapshot and blobs — exactly as it
was: validation precedes every mutation. -/
theorem import_invalidFormat (st : AppState) (a : Archive) (now : String)
    (h : ∀ f, a.topics ≠ some (.arr f)) :
    performImport st a now = (st, some importErrorAlert) := by
  cases ha : a.topics with
  | none => simp [performImport, ha]
  | some tf =>
    cases tf with
    | arr f => exact absurd ha (h f)
    | nonArray => simp [performImport, ha]

/-- Witness for C6: importing an archive with no `topics` field leaves
the sample state untouched and alerts the format error. -/
theorem import_invalidFormat_witness :
    performImport wApp wNoTopicsArchive wNow = (wApp, some importErrorAlert) :=
  import_invalidFormat wApp wNoTopicsArchive wNow (by intro f; simp [wNoTopicsArchive])

/-! ## Claim C3 — removal of a subtree -/

theorem removeFromArray_cons_some (tid : Nat) (d : NodeData) (subs ts : List Node) :
    removeFromArray tid (Node.mk d (some subs) :: ts) =
      if d.id = tid then (ts, true)
      else if (removeFromArray tid subs).2 then
        (Node.mk d (some (removeFromArray tid subs).1) :: ts, true)
      else (Node.mk d (some subs) :: (removeFromArray tid ts).1, (removeFromArray tid ts).2) := by
  rw [removeFromArray]
  rcases h : removeFromArray tid subs with ⟨subs2, b⟩
  cases b <;> simp [h]

theorem removeFromArray_cons_none (tid : Nat) (d : NodeData) (ts : List Node) :
    removeFromArray tid (Node.mk d none :: ts) =
      if d.id = tid then (ts, true)
      else (Node.mk d none :: (removeFromArray tid ts).1, (removeFromArray tid ts).2) := by
  rw [removeFromArray]
  rfl

/-- The removal flag of `removeFromArray` agrees with `findTopicById`:
both walk the same pre-order. -/
theorem removeFromArray_flag (tid : Nat) (l : List Node) :
    (removeFromArray tid l).2 = (findTopicById tid l).isSome := by
  induction l using removeFromArray.induct tid with
  | case1 => simp [removeFromArray]
  | case2 t ts htid =>
    cases t with
    | mk d s =>
      simp only [Node.id_mk] at htid
      cases s with
      | some subs =>
        rw [removeFromArray_cons_some, findTopicById_cons_some]
        simp [htid]
      | none =>
        rw [removeFromArray_cons_none, findTopicById_cons_none]
        simp [htid]
  | case3 t ts htid subs hsubs subs2 hrm ih =>
    cases t with
    | mk d s =>
      simp only [Node.subtopics] at hsubs
      subst hsubs
      simp only [Node.id_mk] at htid
      rw [removeFromArray_cons_some, findTopicById_cons_some]
      rw [hrm] at ih ⊢
      simp only [if_neg htid]
      cases hf : findTopicById tid subs with
      | some found => simp
      | none => rw [hf] at ih; simp at ih
  | case4 t ts htid subs hsubs r hrm ih1 ih2 =>
    cases t with
    | mk d s =>
      simp only [Node.subtopics] at hsubs
      subst hsubs
      simp only [Node.id_mk] at htid
      rw [removeFromArray_cons_some, findTopicById_cons_some]
      rw [hrm] at ih1
      simp only [if_neg htid, hrm]
      cases hf : findTopicById tid subs with
      | some found => rw [hf] at ih1; simp at ih1
      | none => simpa using ih2
  | case5 t ts htid hsubs ih =>
    cases t with
    | mk d s =>
      simp only [Node.subtopics] at hsubs
      subst hsubs
      simp only [Node.id_mk] at htid
      rw [removeFromArray_cons_none, findTopicById_cons_none]
      simpa [htid] using ih

/-- A forest with no node carrying the id is searched without success. -/
theorem findTopicById_eq_none_of_not_mem {tid : Nat} {l : List Node}
    (h : ∀ m ∈ getAllTopicsFlat l, m.id ≠ tid) : findTopicById tid l = none := by
  cases hf : findTopicById tid l with
  | none => rfl
  | some m =>
    obtain ⟨hm, hid⟩ := findTopicById_mem_id hf
    exact absurd hid (h m hm)

/-- Claim C3: in a forest with unique ids, removing an id that resolves
to a node `n` reports a removal, decreases the total recursive node
count by exactly the recursive size of `n`'s subtree, and leaves the id
unresolvable. -/
theorem remove_subtree (f : List Node) (tid : Nat) (n : Node)
    (hnodup : ((getAllTopicsFlat f).map Node.id).Nodup)
    (hfind : findTopicById tid f = some n) :
    (removeFromArray tid f).2 = true ∧
    countAllItemsList (removeFromArray tid f).1 + countAllItems n = countAllItemsList f ∧
    findTopicById tid (removeFromArray tid f).1 = none := by
  induction f using removeFromArray.induct tid with
  | case1 => simp at hfind
  | case2 t ts htid =>
    cases t with
    | mk d s =>
      simp only [Node.id_mk] at htid
      cases s with
      | some subs =>
        rw [findTopicById_cons_some, if_pos htid] at hfind
        injection hfind with hn
        subst hn
        have hr : removeFromArray tid (Node.mk d (some subs) :: ts) = (ts, true) := by
          rw [removeFromArray_cons_some, if_pos htid]
        rw [hr]
        refine ⟨rfl, by simp; omega, ?_⟩
        show findTopicById tid ts = none
        apply findTopicById_eq_none_of_not_mem
        intro m hm hmid
        have hn2 := hnodup
        simp only [getAllTopicsFlat_cons_some, List.map_cons, List.nodup_cons,
          List.map_append, List.mem_append] at hn2
        have hmem : d.id ∈ (getAllTopicsFlat ts).map Node.id := by
          rw [htid, ← hmid]
          exact List.mem_map_of_mem Node.id hm
        exact hn2.1 (Or.inr hmem)
      | none =>
        rw [findTopicById_cons_none, if_pos htid] at hfind
        injection hfind with hn
        subst hn
        have hr : removeFromArray tid (Node.mk d none :: ts) = (ts, true) := by
          rw [removeFromArray_cons_none, if_pos htid]
        rw [hr]
        refine ⟨rfl, by simp; omega, ?_⟩
        show findTopicById tid ts = none
        apply findTopicById_eq_none_of_not_mem
        intro m hm hmid
        have hn2 := hnodup
        simp only [getAllTopicsFlat_cons_none, List.map_cons, List.nodup_cons] at hn2
        have hmem : d.id ∈ (getAllTopicsFlat ts).map Node.id := by
          rw [htid, ← hmid]
          exact List.mem_map_of_mem Node.id hm
        exact hn2.1 hmem
  | case3 t ts htid subs hsubs subs2 hrm ih =>
    cases t with
    | mk d s =>
      simp only [Node.subtopics] at hsubs
      subst hsubs
      simp only [Node.id_mk] at htid
      have hn2 := hnodup
      simp only [getAllTopicsFlat_cons_some, List.map_cons, List.nodup_cons,
        List.map_append, List.nodup_append, List.mem_append] at hn2
      obtain ⟨hdnot, hnsubs, hnts, hdisj⟩ := hn2
      have hflag := removeFromArray_flag tid subs
      rw [hrm] at hflag
      cases hfs : findTopicById tid subs with
      | none => rw [hfs] at hflag; simp at hflag
      | some found =>
        rw [findTopicById_cons_some, if_neg htid, hfs] at hfind
        injection hfind with hn
        subst hn
        obtain ⟨_, hcount, hfnone⟩ := ih hnsubs hfs
        rw [hrm] at hcount hfnone
        have hr : removeFromArray tid (Node.mk d (some subs) :: ts) =
            (Node.mk d (some subs2) :: ts, true) := by
          rw [removeFromArray_cons_some, if_neg htid]
          simp [hrm]
        rw [hr]
        refine ⟨rfl, by simp at hcount ⊢; omega, ?_⟩
        rw [findTopicById_cons_some, if_neg htid, hfnone]
        apply findTopicById_eq_none_of_not_mem
        intro m hm hmid
        have htin : tid ∈ (getAllTopicsFlat subs).map Node.id := by
          obtain ⟨hnm, hnid⟩ := findTopicById_mem_id hfs
          exact hnid ▸ List.mem_map_of_mem Node.id hnm
        exact hdisj htin (hmid ▸ List.mem_map_of_mem Node.id hm)
  | case4 t ts htid subs hsubs r hrm ih1 ih2 =>
    cases t with
    | mk d s =>
      simp only [Node.subtopics] at hsubs
      subst hsubs
      simp only [Node.id_mk] at htid
      have hflag := removeFromArray_flag tid subs
      rw [hrm] at hflag
      cases hfs : findTopicById tid subs with
      | some found => rw [hfs] at hflag; simp at hflag
      | none =>
        rw [findTopicById_cons_some, if_neg htid, hfs] at hfind
        have hn2 := hnodup
        simp only [getAllTopicsFlat_cons_some, List.map_cons, List.nodup_cons,
          List.map_append, List.nodup_append, List.mem_append] at hn2
        obtain ⟨hdnot, hnsubs, hnts, hdisj⟩ := hn2
        obtain ⟨hflag2, hcount, hfnone⟩ := ih2 hnts hfind
        have hr : removeFromArray tid (Node.mk d (some subs) :: ts) =
            (Node.mk d (some subs) :: (removeFromArray tid ts).1,
             (removeFromArray tid ts).2) := by
          rw [removeFromArray_cons_some, if_neg htid, hrm]
          simp [hrm]
        rw [hr]
        refine ⟨hflag2, by simp at hcount ⊢; omega, ?_⟩
        rw [findTopicById_cons_some, if_neg htid, hfs, hfnone]
  | case5 t ts htid hsubs ih =>
    cases t with
    | mk d s =>
      simp only [Node.subtopics] at hsubs
      subst hsubs
      simp only [Node.id_mk] at htid
      rw [findTopicById_cons_none, if_neg htid] at hfind
      have hn2 := hnodup
      simp only [getAllTopicsFlat_cons_none, List.map_cons, List.nodup_cons] at hn2
      obtain ⟨hflag2, hcount, hfnone⟩ := ih hn2.2 hfind
      have hr : removeFromArray tid (Node.mk d none :: ts) =
          (Node.mk d none :: (removeFromArray tid ts).1, (removeFromArray tid ts).2) := by
        rw [removeFromArray_cons_none, if_neg htid]
      rw [hr]
      refine ⟨hflag2, by simp at hcount ⊢; omega, ?_⟩
      rw [findTopicById_cons_none, if_neg htid, hfnone]

/-- Witness for C3: removing container 1 (subtree of size 2) from the
sample forest reports a removal, drops the count from 2 to 0, and makes
id 1 unresolvable. -/
theorem remove_subtree_witness :
    (removeFromArray 1 wForest).2 = true ∧
    countAllItemsList (removeFromArray 1 wForest).1 +
      countAllItems (defSubFolder 1 "A" "container" wNow [defLeaf 2 "B" "leaf" wNow]) =
      countAllItemsList wForest ∧
    findTopicById 1 (removeFromArray 1 wForest).1 = none :=
  remove_subtree wForest 1 (defSubFolder 1 "A" "container" wNow [defLeaf 2 "B" "leaf" wNow])
    (by simp [wForest, defSubFolder, defLeaf])
    (by simp [wForest, defSubFolder, defLeaf, findTopicById])

/-! ## Claims C9 and C5 — rename and subtopic insertion -/

theorem findTopicById_cons (tid : Nat) (t : Node) (ts : List Node) :
    findTopicById tid (t :: ts) =
      if t.id = tid then some t
      else
        match t.subtopics with
        | some subs =>
          (match findTopicById tid subs with
           | some found => some found
           | none => findTopicById tid ts)
        | none => findTopicById tid ts := by
  cases t with
  | mk d s =>
    cases s with
    | some subs =>
      rw [findTopicById_cons_some]
      rfl
    | none =>
      rw [findTopicById_cons_none]
      rfl

theorem updateFirstById_cons_some (tid : Nat) (upd : Node → Node) (d : NodeData)
    (subs ts : List Node) :
    updateFirstById tid upd (Node.mk d (some subs) :: ts) =
      if d.id = tid then upd (Node.mk d (some subs)) :: ts
      else if (findTopicById tid subs).isSome then
        Node.mk d (some (updateFirstById tid upd subs)) :: ts
      else Node.mk d (some subs) :: updateFirstById tid upd ts := by
  rw [updateFirstById]
  rfl

theorem updateFirstById_cons_none (tid : Nat) (upd : Node → Node) (d : NodeData)
    (ts : List Node) :
    updateFirstById tid upd (Node.mk d none :: ts) =
      if d.id = tid then upd (Node.mk d none) :: ts
      else Node.mk d none :: updateFirstById tid upd ts := by
  rw [updateFirstById]
  rfl

/-- Updating the first node with a given id commutes with searching it,
provided the update keeps the id. -/
theorem find_updateFirstById (tid : Nat) (upd : Node → Node) (l : List Node)
    (hid : ∀ u, (upd u).id = u.id) :
    findTopicById tid (updateFirstById tid upd l) = (findTopicById tid l).map upd := by
  induction l using updateFirstById.induct tid upd with
  | case1 => simp [updateFirstById]
  | case2 t ts htid =>
    cases t with
    | mk d s =>
      simp only [Node.id_mk] at htid
      cases s with
      | some subs =>
        rw [updateFirstById_cons_some, if_pos htid, findTopicById_cons,
          findTopicById_cons_some, if_pos htid]
        simp [hid, htid]
      | none =>
        rw [updateFirstById_cons_none, if_pos htid, findTopicById_cons,
          findTopicById_cons_none, if_pos htid]
        simp [hid, htid]
  | case3 t ts htid subs hsubs hsome ih =>
    cases t with
    | mk d s =>
      simp only [Node.subtopics] at hsubs
      subst hsubs
      simp only [Node.id_mk] at htid
      rw [updateFirstById_cons_some, if_neg htid, if_pos hsome,
        findTopicById_cons_some, if_neg htid, findTopicById_cons_some, if_neg htid, ih]
      obtain ⟨found, hfound⟩ := Option.isSome_iff_exists.mp hsome
      rw [hfound]
      simp
  | case4 t ts htid subs hsubs hsome ih =>
    cases t with
    | mk d s =>
      simp only [Node.subtopics] at hsubs
      subst hsubs
      simp only [Node.id_mk] at htid
      have hnone : findTopicById tid subs = none := by
        cases hf : findTopicById tid subs with
        | none => rfl
        | some found => rw [hf] at hsome; simp at hsome
      rw [updateFirstById_cons_some, if_neg htid, if_neg hsome,
        findTopicById_cons_some, if_neg htid, findTopicById_cons_some, if_neg htid,
        hnone, ih]
  | case5 t ts htid hsubs ih =>
    cases t with
    | mk d s =>
      simp only [Node.subtopics] at hsubs
      subst hsubs
      simp only [Node.id_mk] at htid
      rw [updateFirstById_cons_none, if_neg htid, findTopicById_cons_none, if_neg htid,
        findTopicById_cons_none, if_neg htid, ih]

/-- A forest containing no node with the id is unchanged by
`renameAllById`. -/
theorem renameAllById_id (tid : Nat) (nm now : String) (l : List Node)
    (h : ∀ m ∈ getAllTopicsFlat l, m.id ≠ tid) : renameAllById tid nm now l = l := by
  induction l using renameAllById.induct tid nm now with
  | case1 => rw [renameAllById]
  | case2 d subs ts ih1 ih2 =>
    simp only [getAllTopicsFlat_cons_some, List.mem_cons, List.mem_append] at h
    have hd : d.id ≠ tid := by simpa using h _ (Or.inl rfl)
    rw [renameAllById, if_neg hd,
      ih1 (fun m hm => h m (Or.inr (Or.inl hm))),
      ih2 (fun m hm => h m (Or.inr (Or.inr hm)))]
  | case3 d ts ih =>
    simp only [getAllTopicsFlat_cons_none, List.mem_cons] at h
    have hd : d.id ≠ tid := by simpa using h _ (Or.inl rfl)
    rw [renameAllById, if_neg hd, ih (fun m hm => h m (Or.inr hm))]

/-- A forest in which the id does not resolve is unchanged by
`updateFirstById`. -/
theorem updateFirstById_id (tid : Nat) (upd : Node → Node) (l : List Node)
    (h : findTopicById tid l = none) : updateFirstById tid upd l = l := by
  induction l using updateFirstById.induct tid upd with
  | case1 => rw [updateFirstById]
  | case2 t ts htid =>
    rw [findTopicById_cons, if_pos htid] at h
    cases h
  | case3 t ts htid subs hsubs hsome ih =>
    cases t with
    | mk d s =>
      simp only [Node.subtopics] at hsubs
      subst hsubs
      simp only [Node.id_mk] at htid
      rw [findTopicById_cons_some, if_neg htid] at h
      obtain ⟨found, hfound⟩ := Option.isSome_iff_exists.mp hsome
      rw [hfound] at h
      cases h
  | case4 t ts htid subs hsubs hsome ih =>
    cases t with
    | mk d s =>
      simp only [Node.subtopics] at hsubs
      subst hsubs
      simp only [Node.id_mk] at htid
      have hnone : findTopicById tid subs = none := by
        cases hf : findTopicById tid subs with
        | none => rfl
        | some found => rw [hf] at hsome; simp at hsome
      rw [findTopicById_cons_some, if_neg htid, hnone] at h
      rw [updateFirstById_cons_some, if_neg htid, if_neg hsome, ih h]
  | case5 t ts htid hsubs ih =>
    cases t with
    | mk d s =>
      simp only [Node.subtopics] at hsubs
      subst hsubs
      simp only [Node.id_mk] at htid
      rw [findTopicById_cons_none, if_neg htid] at h
      rw [updateFirstById_cons_none, if_neg htid, ih h]

/-- In a forest with unique ids, the in-place rename of the node found
by `findTopicById` coincides with the spec-side rewrite that touches
exactly the nodes carrying the renamed id. -/
theorem updateFirst_rename_eq (tid : Nat) (nm now : String) (l : List Node)
    (hnodup : ((getAllTopicsFlat l).map Node.id).Nodup) :
    updateFirstById tid (renameUpd nm now) l = renameAllById tid nm now l := by
  induction l using updateFirstById.induct tid (renameUpd nm now) with
  | case1 => rw [updateFirstById, renameAllById]
  | case2 t ts htid =>
    cases t with
    | mk d s =>
      simp only [Node.id_mk] at htid
      cases s with
      | some subs =>
        simp only [getAllTopicsFlat_cons_some, List.map_cons, List.nodup_cons,
          List.map_append, List.mem_append, Node.id_mk] at hnodup
        have hsubs : ∀ m ∈ getAllTopicsFlat subs, m.id ≠ tid := by
          intro m hm hmid
          exact hnodup.1 (Or.inl (by rw [htid, ← hmid]; exact List.mem_map_of_mem Node.id hm))
        have hts : ∀ m ∈ getAllTopicsFlat ts, m.id ≠ tid := by
          intro m hm hmid
          exact hnodup.1 (Or.inr (by rw [htid, ← hmid]; exact List.mem_map_of_mem Node.id hm))
        rw [updateFirstById_cons_some, if_pos htid, renameAllById, if_pos htid,
          renameAllById_id tid nm now subs hsubs, renameAllById_id tid nm now ts hts]
        rfl
      | none =>
        simp only [getAllTopicsFlat_cons_none, List.map_cons, List.nodup_cons,
          Node.id_mk] at hnodup
        have hts : ∀ m ∈ getAllTopicsFlat ts, m.id ≠ tid := by
          intro m hm hmid
          exact hnodup.1 (by rw [htid, ← hmid]; exact List.mem_map_of_mem Node.id hm)
        rw [updateFirstById_cons_none, if_pos htid, renameAllById, if_pos htid,
          renameAllById_id tid nm now ts hts]
        rfl
  | case3 t ts htid subs hsubs hsome ih =>
    cases t with
    | mk d s =>
      simp only [Node.subtopics] at hsubs
      subst hsubs
      simp only [Node.id_mk] at htid
      simp only [getAllTopicsFlat_cons_some, List.map_cons, List.nodup_cons,
        List.map_append, List.nodup_append, List.mem_append] at hnodup
      obtain ⟨hdnot, hnsubs, hnts, hdisj⟩ := hnodup
      obtain ⟨found, hfound⟩ := Option.isSome_iff_exists.mp hsome
      have htin : tid ∈ (getAllTopicsFlat subs).map Node.id := by
        obtain ⟨hm, hid⟩ := findTopicById_mem_id hfound
        exact hid ▸ List.mem_map_of_mem Node.id hm
      have hts : ∀ m ∈ getAllTopicsFlat ts, m.id ≠ tid := by
        intro m hm hmid
        exact hdisj htin (hmid ▸ List.mem_map_of_mem Node.id hm)
      rw [updateFirstById_cons_some, if_neg htid, if_pos hsome, renameAllById, if_neg htid,
        renameAllById_id tid nm now ts hts, ih hnsubs]
  | case4 t ts htid subs hsubs hsome ih =>
    cases t with
    | mk d s =>
      simp only [Node.subtopics] at hsubs
      subst hsubs
      simp only [Node.id_mk] at htid
      simp only [getAllTopicsFlat_cons_some, List.map_cons, List.nodup_cons,
        List.map_append, List.nodup_append, List.mem_append] at hnodup
      obtain ⟨hdnot, hnsubs, hnts, hdisj⟩ := hnodup
      have hnone : findTopicById tid subs = none := by
        cases hf : findTopicById tid subs with
        | none => rfl
        | some found => rw [hf] at hsome; simp at hsome
      have hsubs2 : ∀ m ∈ getAllTopicsFlat subs, m.id ≠ tid := findTopicById_none hnone
      rw [updateFirstById_cons_some, if_neg htid, if_neg hsome, renameAllById, if_neg htid,
        renameAllById_id tid nm now subs hsubs2, ih hnts]
  | case5 t ts htid hsubs ih =>
    cases t with
    | mk d s =>
      simp only [Node.subtopics] at hsubs
      subst hsubs
      simp only [Node.id_mk] at htid
      simp only [getAllTopicsFlat_cons_none, List.map_cons, List.nodup_cons] at hnodup
      rw [updateFirstById_cons_none, if_neg htid, renameAllById, if_neg htid, ih hnodup.2]

/-- Claim C9 (amended): with a non-empty trimmed name, `confirmRename`
on a forest with unique ids updates exactly the resolved node's `name`
and `lastModified` (every other node and field is untouched), and the
renamed node is found with its new fields afterwards; when the id does
not resolve, the whole application state is returned unchanged — in
both cases silently, with no user-facing rejection (second component
`none`). -/
theorem confirmRename_spec (st : AppState) (tid : Nat) (raw now : String)
    (hnodup : ((getAllTopicsFlat st.topics).map Node.id).Nodup)
    (hname : jsTrim raw ≠ "") :
    (∀ n, findTopicById tid st.topics = some n →
      (confirmRename st tid raw now).1.topics =
        renameAllById tid (jsTrim raw) now st.topics ∧
      findTopicById tid (confirmRename st tid raw now).1.topics =
        some (renameUpd (jsTrim raw) now n) ∧
      (confirmRename st tid raw now).2 = none) ∧
    (findTopicById tid st.topics = none →
      confirmRename st tid raw now = (st, none)) := by
  constructor
  · intro n hfind
    have h1 : (confirmRename st tid raw now).1.topics =
        updateFirstById tid (renameUpd (jsTrim raw) now) st.topics := by
      simp [confirmRename, if_neg hname, hfind]
    refine ⟨h1.trans (updateFirst_rename_eq tid (jsTrim raw) now st.topics hnodup), ?_, ?_⟩
    · rw [h1, find_updateFirstById tid (renameUpd (jsTrim raw) now) st.topics (fun u => rfl), hfind]
      rfl
    · simp [confirmRename, if_neg hname, hfind]
  · intro hfind
    simp [confirmRename, if_neg hname, hfind]

/-- Witness for C9 at the sample forest: renaming leaf 2 rewrites
exactly that node and is silent. -/
theorem confirmRename_spec_witness :
    (confirmRename wApp 2 "NEW" wNow).1.topics = renameAllById 2 (jsTrim "NEW") wNow wApp.topics ∧
    findTopicById 2 (confirmRename wApp 2 "NEW" wNow).1.topics =
      some (renameUpd (jsTrim "NEW") wNow (defLeaf 2 "B" "leaf" wNow)) ∧
    (confirmRename wApp 2 "NEW" wNow).2 = none :=
  (confirmRename_spec wApp 2 "NEW" wNow
      (by simp [wApp, wForest, defSubFolder, defLeaf])
      (by decide)).1
    (defLeaf 2 "B" "leaf" wNow)
    (by simp [wApp, wForest, defSubFolder, defLeaf, findTopicById])

/-- Counterexample to C9 as stated: renaming an id that does not
resolve (999 is absent from the sample forest) is NOT surfaced as a
user-facing NotFound rejection — `confirmRename` returns the state
unchanged with no alert at all. -/
theorem confirmRename_missing_silent_cex :
    findTopicById 999 wApp.topics = none ∧ confirmRename wApp 999 "X" wNow = (wApp, none) := by
  constructor
  · simp [wApp, wForest, defSubFolder, defLeaf, findTopicById]
  · simp [confirmRename, wApp, wForest, defSubFolder, defLeaf, findTopicById]

/-- Claim C5 (amended): `insertChild` with a parent id that resolves to
a `pdf-folder` leaf raises the InvalidParent alert; with a parent id
that does not resolve it returns silently (no alert); in both cases the
application state — in particular the forest — is returned completely
unchanged. -/
theorem insertChild_leaf_or_missing (st : AppState) (pid : Nat) (nameRaw descRaw : String)
    (ft : FolderType) (newId : Nat) (now : String)
    (h : ∀ p, findTopicById pid st.topics = some p → p.folderType = .pdfFolder) :
    insertChild st pid nameRaw descRaw ft newId now =
      (st, match findTopicById pid st.topics with
           | none => none
           | some _ => some pdfFolderAlert) := by
  cases hf : findTopicById pid st.topics with
  | none => simp [insertChild, hf]
  | some p => simp [insertChild, hf, h p hf]

/-- Witness for C5: inserting under leaf 2 of the sample forest raises
the InvalidParent alert and changes nothing. -/
theorem insertChild_leaf_or_missing_witness :
    insertChild wApp 2 "X" "" .folder 77 wNow = (wApp, some pdfFolderAlert) := by
  have h := insertChild_leaf_or_missing wApp 2 "X" "" .folder 77 wNow
    (by intro p hp
        simp [wApp, wForest, defSubFolder, defLeaf, findTopicById] at hp
        simp [← hp, defLeaf])
  rw [h]
  simp [wApp, wForest, defSubFolder, defLeaf, findTopicById]

/-- An `insertChild` whose parent id does not resolve returns the state
unchanged, with no alert. -/
theorem insertChild_noParent (st : AppState) (pid : Nat) (nameRaw descRaw : String)
    (ft : FolderType) (newId : Nat) (now : String)
    (hf : findTopicById pid st.topics = none) :
    insertChild st pid nameRaw descRaw ft newId now = (st, none) := by
  simp [insertChild, hf]

/-- Counterexample to C5 as stated: an `insertChild` whose parent id
does not resolve (999 is absent from the sample forest) does NOT fail
with the InvalidParent user-facing rejection — it returns silently with
no alert. -/
theorem insertChild_missing_parent_cex :
    findTopicById 999 wApp.topics = none ∧
    (insertChild wApp 999 "X" "" .folder 77 wNow).2 = none := by
  have hf : findTopicById 999 wApp.topics = none := by
    simp [wApp, wForest, defSubFolder, defLeaf, findTopicById]
  exact ⟨hf, by rw [insertChild_noParent wApp 999 "X" "" .folder 77 wNow hf]⟩

/-! ## Claim C7 — the Leaf invariant under the operations -/

@[simp] theorem leafInvNode_mk_none (d : NodeData) : leafInvNode (.mk d none) = true := by
  simp [leafInvNode]

@[simp] theorem leafInvNode_mk_some (d : NodeData) (subs : List Node) :
    leafInvNode (.mk d (some subs)) =
      ((decide (d.folderType = .folder) || subs.isEmpty) && leafInvList subs) := by
  simp [leafInvNode]

@[simp] theorem leafInvList_nil : leafInvList [] = true := by
  simp [leafInvList]

@[simp] theorem leafInvList_cons (t : Node) (ts : List Node) :
    leafInvList (t :: ts) = (leafInvNode t && leafInvList ts) := by
  simp [leafInvList]

theorem leafInvList_append (as bs : List Node) :
    leafInvList (as ++ bs) = (leafInvList as && leafInvList bs) := by
  induction as with
  | nil => simp
  | cons a as ih => simp [ih, Bool.and_assoc]

/-- Splicing a subtree out never breaks the leaf invariant. -/
theorem leafInv_removeFromArray (tid : Nat) (l : List Node) (h : leafInvList l = true) :
    leafInvList (removeFromArray tid l).1 = true := by
  induction l using removeFromArray.induct tid with
  | case1 => simp [removeFromArray]
  | case2 t ts htid =>
    cases t with
    | mk d s =>
      simp only [Node.id_mk] at htid
      simp only [leafInvList_cons, Bool.and_eq_true] at h
      cases s with
      | some subs =>
        rw [removeFromArray_cons_some, if_pos htid]
        exact h.2
      | none =>
        rw [removeFromArray_cons_none, if_pos htid]
        exact h.2
  | case3 t ts htid subs hsubs subs2 hrm ih =>
    cases t with
    | mk d s =>
      simp only [Node.subtopics] at hsubs
      subst hsubs
      simp only [Node.id_mk] at htid
      simp only [leafInvList_cons, leafInvNode_mk_some, Bool.and_eq_true,
        Bool.or_eq_true, decide_eq_true_eq] at h
      obtain ⟨⟨hdisc, hsubsinv⟩, htsinv⟩ := h
      have hfold : d.folderType = .folder := by
        cases hdisc with
        | inl hf => exact hf
        | inr hemp =>
          have : subs = [] := List.isEmpty_iff.mp hemp
          subst this
          rw [removeFromArray] at hrm
          cases hrm
      have hr : removeFromArray tid (Node.mk d (some subs) :: ts) =
          (Node.mk d (some subs2) :: ts, true) := by
        rw [removeFromArray_cons_some, if_neg htid]
        simp [hrm]
      rw [hr]
      have := ih hsubsinv
      rw [hrm] at this
      simp [hfold, this, htsinv]
  | case4 t ts htid subs hsubs r hrm ih1 ih2 =>
    cases t with
    | mk d s =>
      simp only [Node.subtopics] at hsubs
      subst hsubs
      simp only [Node.id_mk] at htid
      simp only [leafInvList_cons, Bool.and_eq_true] at h
      have hr : removeFromArray tid (Node.mk d (some subs) :: ts) =
          (Node.mk d (some subs) :: (removeFromArray tid ts).1,
           (removeFromArray tid ts).2) := by
        rw [removeFromArray_cons_some, if_neg htid, hrm]
        simp [hrm]
      rw [hr]
      simp [h.1, ih2 h.2]
  | case5 t ts htid hsubs ih =>
    cases t with
    | mk d s =>
      simp only [Node.subtopics] at hsubs
      subst hsubs
      simp only [Node.id_mk] at htid
      simp only [leafInvList_cons, Bool.and_eq_true] at h
      rw [removeFromArray_cons_none, if_neg htid]
      simp [h.1, ih h.2]

/-- Updating the first node carrying an id keeps the leaf invariant,
provided the update keeps the invariant on the node that
`findTopicById` resolves. -/
theorem leafInv_updateFirstById (tid : Nat) (upd : Node → Node) (l : List Node)
    (h : leafInvList l = true)
    (hupd : ∀ u, findTopicById tid l = some u → leafInvNode u = true →
      leafInvNode (upd u) = true) :
    leafInvList (updateFirstById tid upd l) = true := by
  induction l using updateFirstById.induct tid upd with
  | case1 => simp [updateFirstById]
  | case2 t ts htid =>
    simp only [leafInvList_cons, Bool.and_eq_true] at h
    have hfind : findTopicById tid (t :: ts) = some t := by
      rw [findTopicById_cons, if_pos htid]
    cases t with
    | mk d s =>
      simp only [Node.id_mk] at htid
      cases s with
      | some subs =>
        rw [updateFirstById_cons_some, if_pos htid]
        simp [hupd _ hfind h.1, h.2]
      | none =>
        rw [updateFirstById_cons_none, if_pos htid]
        simp [hupd _ hfind h.1, h.2]
  | case3 t ts htid subs hsubs hsome ih =>
    cases t with
    | mk d s =>
      simp only [Node.subtopics] at hsubs
      subst hsubs
      simp only [Node.id_mk] at htid
      simp only [leafInvList_cons, leafInvNode_mk_some, Bool.and_eq_true,
        Bool.or_eq_true, decide_eq_true_eq] at h
      obtain ⟨⟨hdisc, hsubsinv⟩, htsinv⟩ := h
      obtain ⟨found, hfound⟩ := Option.isSome_iff_exists.mp hsome
      have htransfer : ∀ u, findTopicById tid subs = some u → leafInvNode u = true →
          leafInvNode (upd u) = true := by
        intro u hu hinvu
        apply hupd u _ hinvu
        rw [findTopicById_cons_some, if_neg htid, hu]
      have hfold : d.folderType = .folder := by
        cases hdisc with
        | inl hf => exact hf
        | inr hemp =>
          have : subs = [] := List.isEmpty_iff.mp hemp
          subst this
          simp at hsome
      rw [updateFirstById_cons_some, if_neg htid, if_pos hsome]
      simp [hfold, ih hsubsinv htransfer, htsinv]
  | case4 t ts htid subs hsubs hsome ih =>
    cases t with
    | mk d s =>
      simp only [Node.subtopics] at hsubs
      subst hsubs
      simp only [Node.id_mk] at htid
      simp only [leafInvList_cons, Bool.and_eq_true] at h
      have hnone : findTopicById tid subs = none := by
        cases hf : findTopicById tid subs with
        | none => rfl
        | some found => rw [hf] at hsome; simp at hsome
      have htransfer : ∀ u, findTopicById tid ts = some u → leafInvNode u = true →
          leafInvNode (upd u) = true := by
        intro u hu hinvu
        apply hupd u _ hinvu
        rw [findTopicById_cons_some, if_neg htid, hnone, hu]
      rw [updateFirstById_cons_some, if_neg htid, if_neg hsome]
      simp [h.1, ih h.2 htransfer]
  | case5 t ts htid hsubs ih =>
    cases t with
    | mk d s =>
      simp only [Node.subtopics] at hsubs
      subst hsubs
      simp only [Node.id_mk] at htid
      simp only [leafInvList_cons, Bool.and_eq_true] at h
      have htransfer : ∀ u, findTopicById tid ts = some u → leafInvNode u = true →
          leafInvNode (upd u) = true := by
        intro u hu hinvu
        apply hupd u _ hinvu
        rw [findTopicById_cons_none, if_neg htid, hu]
      rw [updateFirstById_cons_none, if_neg htid]
      simp [h.1, ih h.2 htransfer]

/-- The fallback scan of `deleteSubtopic` keeps the leaf invariant. -/
theorem leafInv_removeFromTopLevelSubs (sid : Nat) (l : List Node)
    (h : leafInvList l = true) : leafInvList (removeFromTopLevelSubs sid l) = true := by
  induction l with
  | nil => simp [removeFromTopLevelSubs]
  | cons t ts ih =>
    simp only [leafInvList_cons, Bool.and_eq_true] at h
    cases t with
    | mk d s =>
      cases s with
      | some subs =>
        rw [removeFromTopLevelSubs]
        simp only [Node.subtopics_mk]
        rcases hrm : removeFromArray sid subs with ⟨subs2, b⟩
        cases b with
        | true =>
          simp only
          simp only [leafInvNode_mk_some, Bool.and_eq_true, Bool.or_eq_true,
            decide_eq_true_eq] at h
          obtain ⟨⟨hdisc, hsubsinv⟩, htsinv⟩ := h
          have hfold : d.folderType = .folder := by
            cases hdisc with
            | inl hf => exact hf
            | inr hemp =>
              have : subs = [] := List.isEmpty_iff.mp hemp
              subst this
              rw [removeFromArray] at hrm
              cases hrm
          have hinv2 := leafInv_removeFromArray sid subs hsubsinv
          rw [hrm] at hinv2
          simp [hfold, hinv2, htsinv]
        | false =>
          simp only
          simp [h.1, ih h.2]
      | none =>
        rw [removeFromTopLevelSubs]
        simp only [Node.subtopics_mk]
        simp [h.1, ih h.2]

/-- The defaults satisfy the Leaf invariant. -/
theorem leafInv_defaults (now : String) : leafInvList (defaultTopics now) = true := by
  simp [defaultTopics, defTopicFolder, defSubFolder, defLeaf]

theorem leafInv_snoc (l : List Node) (nd : Node) (h1 : leafInvList l = true)
    (h2 : leafInvNode nd = true) : leafInvList (l ++ [nd]) = true := by
  simp [leafInvList_append, h1, h2]

theorem leafInv_createTopic (s : AppState) (nameRaw : String) (ft : FolderType) (newId : Nat)
    (now : String) (h : leafInvList s.topics = true) :
    leafInvList (createTopic s nameRaw ft newId now).topics = true := by
  simp only [createTopic]
  split
  · exact h
  · exact leafInv_snoc _ _ h (by cases ft <;> simp)

theorem leafInv_insertChild (s : AppState) (pid : Nat) (nameRaw descRaw : String)
    (ft : FolderType) (newId : Nat) (now : String) (h : leafInvList s.topics = true) :
    leafInvList (insertChild s pid nameRaw descRaw ft newId now).1.topics = true := by
  simp only [insertChild]
  cases hf : findTopicById pid s.topics with
  | none => exact h
  | some p =>
    simp only
    split
    · exact h
    · split
      · exact h
      · simp only
        rename_i hnotleaf hname
        apply leafInv_updateFirstById pid _ s.topics h
        intro u hu hinvu
        rw [hf] at hu
        injection hu with hu
        subst hu
        have hfold : p.folderType = FolderType.folder := by
          cases hft : p.folderType with
          | folder => rfl
          | pdfFolder => exact absurd hft hnotleaf
        cases p with
        | mk d sx =>
          simp only [Node.folderType_mk] at hfold
          cases sx with
          | some subs =>
            simp only [leafInvNode_mk_some, Bool.and_eq_true] at hinvu
            simp only [Node.subtopics_mk, Option.getD_some, leafInvNode_mk_some,
              leafInvList_append, hfold]
            simp [hinvu.2]
            cases ft <;> simp [hfold]
          | none =>
            simp only [Node.subtopics_mk, Option.getD_none, leafInvNode_mk_some,
              List.nil_append, hfold]
            simp
            cases ft <;> simp [hfold]

theorem leafInv_confirmRename (s : AppState) (tid : Nat) (raw now : String)
    (h : leafInvList s.topics = true) :
    leafInvList (confirmRename s tid raw now).1.topics = true := by
  simp only [confirmRename]
  split
  · exact h
  · cases hf : findTopicById tid s.topics with
    | none => simpa using h
    | some p =>
      simp only
      apply leafInv_updateFirstById tid _ s.topics h
      intro u hu hinvu
      cases u with
      | mk d sx =>
        cases sx with
        | some subs => simpa [renameUpd] using hinvu
        | none => simp [renameUpd]

theorem leafInv_toggleTopic (s : AppState) (tid : Nat) (now : String)
    (h : leafInvList s.topics = true) :
    leafInvList (toggleTopic s tid now).topics = true := by
  simp only [toggleTopic]
  cases hf : findTopicById tid s.topics with
  | none => exact h
  | some p =>
    simp only
    split
    · exact h
    · simp only
      apply leafInv_updateFirstById tid _ s.topics h
      intro u hu hinvu
      cases u with
      | mk d sx =>
        cases sx with
        | some subs => simpa using hinvu
        | none => simp

theorem leafInv_deleteTopic (s : AppState) (tid : Nat) (now : String)
    (h : leafInvList s.topics = true) :
    leafInvList (deleteTopic s tid now).topics = true := by
  simp only [deleteTopic]
  cases hf : findTopicById tid s.topics with
  | none => exact h
  | some p => exact leafInv_removeFromArray tid s.topics h

theorem leafInv_deleteSubtopic (s : AppState) (sid pid : Nat) (now : String)
    (h : leafInvList s.topics = true) :
    leafInvList (deleteSubtopic s sid pid now).topics = true := by
  simp only [deleteSubtopic]
  cases hf : findTopicById sid s.topics with
  | none => exact h
  | some q =>
    simp only
    cases hfp : findTopicById pid s.topics with
    | none => exact leafInv_removeFromTopLevelSubs sid s.topics h
    | some p =>
      simp only
      cases hps : p.subtopics with
      | none => exact leafInv_removeFromTopLevelSubs sid s.topics h
      | some psubs =>
        simp only
        apply leafInv_updateFirstById pid _ s.topics h
        intro u hu hinvu
        cases u with
        | mk d sx =>
          cases sx with
          | none => simp
          | some subs =>
            simp only [Node.subtopics_mk, Option.map_some, leafInvNode_mk_some,
              Bool.and_eq_true, Bool.or_eq_true, decide_eq_true_eq] at hinvu
            obtain ⟨hdisc, hsubsinv⟩ := hinvu
            have h2 := leafInv_removeFromArray sid subs hsubsinv
            cases hdisc with
            | inl hf2 => simp [hf2, h2]
            | inr hemp =>
              have he : subs = [] := List.isEmpty_iff.mp hemp
              subst he
              have hrnil : removeFromArray sid ([] : List Node) = ([], false) := by
                rw [removeFromArray]
              simp [hrnil]

/-- Claim C7 (amended): every application state reachable from the
built-in defaults through the tree-editing operations — topic creation,
subtopic insertion, rename, expansion toggle, topic/subtopic deletion —
satisfies the Leaf invariant: no `pdf-folder` node has a non-empty
`subtopics` sequence.  (`performImport` is excluded: it performs no
structural validation and can load a forest violating the invariant.) -/
theorem editReachable_leafInv (s : AppState) (h : ReachableEdit s) :
    leafInvList s.topics = true := by
  induction h with
  | start now store => exact leafInv_defaults now
  | create s nameRaw ft newId now hr ih => exact leafInv_createTopic s nameRaw ft newId now ih
  | insert s pid nameRaw descRaw ft newId now hr ih =>
    exact leafInv_insertChild s pid nameRaw descRaw ft newId now ih
  | rename s tid raw now hr ih => exact leafInv_confirmRename s tid raw now ih
  | toggle s tid now hr ih => exact leafInv_toggleTopic s tid now ih
  | deleteTop s tid now hr ih => exact leafInv_deleteTopic s tid now ih
  | deleteSub s sid pid now hr ih => exact leafInv_deleteSubtopic s sid pid now ih

/-- Witness for C7: the invariant holds at the edit-reachable initial
state built from the defaults. -/
theorem editReachable_leafInv_witness :
    leafInvList (AppState.mk (defaultTopics wNow) wStore).topics = true :=
  editReachable_leafInv ⟨defaultTopics wNow, wStore⟩ (.start wNow wStore)

/-- Counterexample to C7 as stated: `importAll` is among the claimed
operations, but importing an archive whose forest has a `pdf-folder`
node with a non-empty `subtopics` array yields a reachable state that
violates the Leaf invariant — `performImport` never inspects
`folderType`. -/
theorem import_breaks_leafInv_cex :
    ReachableAll (performImport ⟨defaultTopics wNow, wStore⟩ wBadArchive wNow).1 ∧
    leafInvList (performImport ⟨defaultTopics wNow, wStore⟩ wBadArchive wNow).1.topics = false :=
  ⟨.importArchive ⟨defaultTopics wNow, wStore⟩ wBadArchive wNow (.start wNow wStore),
   by simp only [performImport, wBadArchive]
      simp [defLeaf]⟩

/-! ## Claim C1 — export/import round trip -/

theorem charsPrefix_append_self (p rest : List Char) : charsPrefix p (p ++ rest) = true := by
  induction p with
  | nil => rfl
  | cons c cs ih => simp [charsPrefix, ih]

/-- A prefix starting with a non-digit character never matches an
all-digit string. -/
theorem charsPrefix_digits_false (c : Char) (cs l : List Char)
    (hl : ∀ x ∈ l, x.isDigit = true) (hc : c.isDigit = false) :
    charsPrefix (c :: cs) l = false := by
  cases l with
  | nil => rfl
  | cons b bs =>
    have hb : b.isDigit = true := hl b (List.mem_cons_self b bs)
    have hne : ¬(c = b) := by
      intro hcb
      rw [hcb, hb] at hc
      cases hc
    simp [charsPrefix, hne]

theorem digitChar_isDigit (k : Nat) (h : k < 10) : (Nat.digitChar k).isDigit = true := by
  interval_cases k <;> decide

theorem toDigitsCore_digits (fuel : Nat) : ∀ (n : Nat) (ds : List Char),
    (∀ c ∈ ds, c.isDigit = true) → ∀ c ∈ Nat.toDigitsCore 10 fuel n ds, c.isDigit = true := by
  induction fuel with
  | zero =>
    intro n ds h
    simpa [Nat.toDigitsCore] using h
  | succ fuel ih =>
    intro n ds h
    have hcons : ∀ c ∈ Nat.digitChar (n % 10) :: ds, c.isDigit = true := by
      intro c hc
      rcases List.mem_cons.mp hc with rfl | hc
      · exact digitChar_isDigit _ (Nat.mod_lt n (by norm_num))
      · exact h c hc
    simp only [Nat.toDigitsCore]
    split
    · exact hcons
    · exact ih (n / 10) _ hcons

/-- Every character of the decimal rendering of a natural number is a
digit. -/
theorem nat_repr_digits (n : Nat) : ∀ c ∈ (Nat.repr n).data, c.isDigit = true := by
  have h := toDigitsCore_digits (n + 1) n [] (by simp)
  simpa [Nat.repr, Nat.toDigits, List.asString] using h

/-- A bare decimal node id does not carry the `pdf_` tag. -/
theorem repr_not_pdf (n : Nat) : strStartsWith (Nat.repr n) "pdf_" = false := by
  have : ("pdf_" : String).data = 'p' :: "df_".data := rfl
  rw [strStartsWith, this]
  exact charsPrefix_digits_false 'p' _ _ (nat_repr_digits n) (by decide)

/-- A bare decimal node id does not carry the `excel_` tag. -/
theorem repr_not_excel (n : Nat) : strStartsWith (Nat.repr n) "excel_" = false := by
  have : ("excel_" : String).data = 'e' :: "xcel_".data := rfl
  rw [strStartsWith, this]
  exact charsPrefix_digits_false 'e' _ _ (nat_repr_digits n) (by decide)

/-- Import normalizes the bare id emitted by export into the
primary-payload key. -/
theorem normalizeKey_repr (i : Nat) : normalizeKey (Nat.repr i) = pdfKey i := by
  simp [normalizeKey, pdfKey, repr_not_pdf, repr_not_excel]

/-- A derived-artifact key is kept as-is by the import normalization. -/
theorem normalizeKey_excelKey (i : Nat) : normalizeKey (excelKey i) = excelKey i := by
  have h2 : strStartsWith (excelKey i) "excel_" = true := by
    rw [excelKey, strStartsWith, String.data_append]
    exact charsPrefix_append_self _ _
  simp [normalizeKey, h2]

theorem string_append_right_inj {p a b : String} (h : p ++ a = p ++ b) : a = b := by
  have hd : p.data ++ a.data = p.data ++ b.data := by
    rw [← String.data_append, ← String.data_append, h]
  have hab : a.data = b.data := List.append_cancel_left hd
  cases a with
  | mk da =>
    cases b with
    | mk db =>
      have : da = db := hab
      rw [this]

theorem pdfKey_eq_iff (i j : Nat) : pdfKey i = pdfKey j ↔ Nat.repr i = Nat.repr j := by
  constructor
  · intro h
    exact string_append_right_inj h
  · intro h
    rw [pdfKey, pdfKey, h]

theorem excelKey_ne_pdfKey (i j : Nat) : excelKey i ≠ pdfKey j := by
  intro h
  have hd : (excelKey i).data = (pdfKey j).data := congrArg String.data h
  rw [excelKey, pdfKey, String.data_append, String.data_append] at hd
  have h1 : ("excel_" : String).data = 'e' :: "xcel_".data := rfl
  have h2 : ("pdf_" : String).data = 'p' :: "df_".data := rfl
  rw [h1, h2] at hd
  simp [List.cons_append] at hd

/-- A no-failure write to one key does not change the no-failure read of
another. -/
theorem getFromStorage_save_other (s : StorageState) (k k2 v now : String) (h : k ≠ k2) :
    getFromStorage (saveToStorage s k v now false) k2 .noFail =
      getFromStorage s k2 .noFail := by
  cases s with
  | mk tier db ls mem snap =>
    cases tier <;> simp [saveToStorage, getFromStorage, kvGet_set_other h]

/-- Writing the forest snapshot does not affect any blob read. -/
theorem getFromStorage_saveData (s : StorageState) (topics : List Node) (now k : String)
    (failure : GetFailure) :
    getFromStorage (saveData s topics now) k failure = getFromStorage s k failure := by
  cases s with
  | mk tier db ls mem snap => cases tier <;> simp [saveData, getFromStorage]

/-- Reading after the import blob loop: the last archive entry whose
normalized key matches wins; otherwise the read falls through to the
pre-import store. -/
theorem getFromStorage_writeArchiveBlobs (s : StorageState) (now : String)
    (es : List (String × String)) (k : String) :
    getFromStorage (writeArchiveBlobs s now es) k .noFail =
      (match lastWrite k es with
       | some v => .ok (some v)
       | none => getFromStorage s k .noFail) := by
  induction es generalizing s with
  | nil => simp [writeArchiveBlobs, lastWrite]
  | cons e rest ih =>
    obtain ⟨k2, v⟩ := e
    rw [writeArchiveBlobs, ih]
    cases hl : lastWrite k rest with
    | some w => simp [lastWrite, hl]
    | none =>
      simp only [lastWrite, hl]
      by_cases hk : normalizeKey k2 = k
      · rw [if_pos hk, hk, getFromStorage_save_same]
      · rw [if_neg hk, getFromStorage_save_other s (normalizeKey k2) k v now hk]

theorem lastWrite_append (k : String) (as bs : List (String × String)) :
    lastWrite k (as ++ bs) =
      (match lastWrite k bs with
       | some w => some w
       | none => lastWrite k as) := by
  induction as with
  | nil =>
    simp only [List.nil_append, lastWrite]
    cases lastWrite k bs <;> simp
  | cons e as ih =>
    obtain ⟨k2, v⟩ := e
    rw [List.cons_append, lastWrite, ih, lastWrite]
    cases lastWrite k bs <;> cases lastWrite k as <;> simp

/-- No export entry of a flat list avoiding an id normalizes onto that
id's primary key. -/
theorem lastWrite_exportPdfs_none (s : StorageState) (l : List Node) (i : Nat)
    (h : ∀ m ∈ l, Nat.repr m.id ≠ Nat.repr i) :
    lastWrite (pdfKey i) (exportPdfs s l) = none := by
  induction l with
  | nil => rfl
  | cons t ts ih =>
    rw [exportPdfs, lastWrite_append]
    rw [ih (fun m hm => h m (List.mem_cons_of_mem t hm))]
    have hrepr : Nat.repr t.id ≠ Nat.repr i := h t (List.mem_cons_self t ts)
    have hpne : pdfKey t.id ≠ pdfKey i := fun hh => hrepr ((pdfKey_eq_iff t.id i).mp hh)
    by_cases hft : t.folderType = FolderType.pdfFolder
    · rw [if_pos hft]
      cases hp : getFromStorage s (pdfKey t.id) .noFail with
      | rejected =>
        cases he : getFromStorage s (excelKey t.id) .noFail with
        | rejected => rfl
        | ok eval =>
          cases eval with
          | none => rfl
          | some e =>
            simp [lastWrite, normalizeKey_excelKey, excelKey_ne_pdfKey]
      | ok pval =>
        cases pval with
        | none =>
          cases he : getFromStorage s (excelKey t.id) .noFail with
          | rejected => rfl
          | ok eval =>
            cases eval with
            | none => rfl
            | some e =>
              simp [lastWrite, normalizeKey_excelKey, excelKey_ne_pdfKey]
        | some d =>
          cases he : getFromStorage s (excelKey t.id) .noFail with
          | rejected =>
            simp [lastWrite, normalizeKey_repr, hpne]
          | ok eval =>
            cases eval with
            | none =>
              simp [lastWrite, normalizeKey_repr, hpne]
            | some e =>
              simp [lastWrite, lastWrite_append, normalizeKey_excelKey, excelKey_ne_pdfKey,
                normalizeKey_repr, hpne]
    · rw [if_neg hft]
      rfl

/-- The last export entry normalizing onto the primary key of a
`pdf-folder` node with a stored payload carries exactly that payload
(ids unique as key strings). -/
theorem lastWrite_exportPdfs_found (s : StorageState) (l : List Node) (n : Node) (d : String)
    (hmem : n ∈ l) (hft : n.folderType = FolderType.pdfFolder)
    (hget : getFromStorage s (pdfKey n.id) .noFail = .ok (some d))
    (hnd : (l.map (fun m => Nat.repr m.id)).Nodup) :
    lastWrite (pdfKey n.id) (exportPdfs s l) = some d := by
  induction l with
  | nil => cases hmem
  | cons t ts ih =>
    simp only [List.map_cons, List.nodup_cons, List.mem_map] at hnd
    rw [exportPdfs, lastWrite_append]
    rcases List.mem_cons.mp hmem with rfl | hmem2
    · have hnone : lastWrite (pdfKey n.id) (exportPdfs s ts) = none := by
        apply lastWrite_exportPdfs_none
        intro m hm heq
        exact hnd.1 ⟨m, hm, heq⟩
      rw [hnone]
      rw [if_pos hft, hget]
      cases he : getFromStorage s (excelKey n.id) .noFail with
      | rejected => simp [lastWrite, normalizeKey_repr]
      | ok eval =>
        cases eval with
        | none => simp [lastWrite, normalizeKey_repr]
        | some e =>
          simp [lastWrite, lastWrite_append, normalizeKey_excelKey, excelKey_ne_pdfKey,
            normalizeKey_repr]
    · rw [ih hmem2 hnd.2]

/-- Claim C1: for a forest whose node ids are unique (as key strings),
`performImport` of `exportAllData` succeeds, reproduces the forest
literally — identical ids, names, kinds and nesting, in order — and
every `pdf-folder` node whose primary payload was stored under
`pdf_<id>` before export resolves the same payload bytes after import
(export emits it under the bare id; import re-tags it `pdf_<id>`). -/
theorem exportImport_roundTrip (st : AppState) (now now2 : String)
    (hids : ((getAllTopicsFlat st.topics).map (fun t => Nat.repr t.id)).Nodup) :
    (performImport st (exportAllData st now) now2).1.topics = st.topics ∧
    (performImport st (exportAllData st now) now2).2 = some importSuccessAlert ∧
    ∀ n ∈ getAllTopicsFlat st.topics, n.folderType = FolderType.pdfFolder →
      ∀ d, getFromStorage st.store (pdfKey n.id) .noFail = .ok (some d) →
        getFromStorage (performImport st (exportAllData st now) now2).1.store
          (pdfKey n.id) .noFail = .ok (some d) := by
  have hred : performImport st (exportAllData st now) now2 =
      ({ topics := st.topics,
         store := writeArchiveBlobs (saveData st.store st.topics now2) now2
           (exportPdfs st.store (getAllTopicsFlat st.topics)) }, some importSuccessAlert) := by
    rw [performImport]
    rfl
  rw [hred]
  refine ⟨rfl, rfl, ?_⟩
  intro n hmem hft d hget
  rw [getFromStorage_writeArchiveBlobs,
    lastWrite_exportPdfs_found st.store _ n d hmem hft hget hids]

/-- Witness for C1 at the sample state: the round trip reproduces the
forest and leaf 2's payload still resolves byte-for-byte. -/
theorem exportImport_roundTrip_witness :
    (performImport wApp (exportAllData wApp wNow) wNow).1.topics = wApp.topics ∧
    getFromStorage (performImport wApp (exportAllData wApp wNow) wNow).1.store
      (pdfKey (defLeaf 2 "B" "leaf" wNow).id) .noFail = .ok (some "PAYLOAD") := by
  have h := exportImport_roundTrip wApp wNow wNow
    (by simp [wApp, wForest, defSubFolder, defLeaf]
        decide)
  refine ⟨h.1, h.2.2 (defLeaf 2 "B" "leaf" wNow) ?_ ?_ "PAYLOAD" ?_⟩
  · simp [wApp, wForest, defSubFolder, defLeaf]
  · simp [defLeaf]
  · simp [wApp, wStore, getFromStorage, kvGet, defLeaf]
